import Mathlib

/-!
Verification of the annotated-data container in `scanpy/ann_data.py`.

The Python module stores a two-dimensional numeric matrix together with two
bound metadata tables (`BoundRecArr`, one per axis), free-form dataset
metadata, and visualization hints.  This file gives a shallow embedding of
the data model and of the operations `__init__`, `__setattr__`,
`BoundRecArr.__setitem__`, `__getitem__`, `__setitem__`, `__delitem__`,
`transpose` and `to_dict`, and proves the specification claims about them.

Modelling conventions:
* matrix entries are integers; a matrix carries its two axis sizes plus an
  entry function (the scanpy core never performs arithmetic on entries);
* numpy record arrays become explicit name/column lists; Python `dict`
  arguments become ordered association lists with unique keys (Python
  dictionaries preserve insertion order and have unique keys);
* every fallible Python operation returns `Except Err`; mutation of `self`
  becomes explicit state passing;
* 1-D matrix inputs, which lines 187-188 of the source normalize to shape
  (N, 1) before anything else looks at the shape, are modelled as already
  two-dimensional (`Mat` is 2-D by construction);
* negative indices and step slices never occur in the specification claims
  and are not modelled: slice bounds are naturals.
-/

namespace Scanpy

/-- A scalar cell value of a metadata column: the source stores either
numeric or string annotation entries. -/
inductive Val
  | int (n : Int)
  | str (s : String)
deriving DecidableEq, Repr

/-- The visualization-hint mapping (`vis`); its values are opaque to the
core, which only stores and forwards it. -/
abbrev Vis := List (String × Val)

/-- The data matrix `X`: two axis sizes (`shape[0]`, `shape[1]`) and an
entry function.  Stands for the dense / masked / sparse numpy payload, of
which the core only uses `.shape`, 2-D slicing and element assignment. -/
structure Mat where
  nrSmp : Nat
  nrVar : Nat
  entry : Nat → Nat → Int

/-- Build a matrix from a rectangular list of rows (row-major, as a numpy
literal like `np.array([[1,2,3],[4,5,6]])`). -/
def Mat.ofLists (l : List (List Int)) : Mat :=
  { nrSmp := l.length
    nrVar := (l.headD []).length
    entry := fun i j => ((l.getD i []).getD j 0) }

/-- Read a matrix back as a list of rows (the observable content used to
compare against expected `tolist()` values). -/
def Mat.toLists (m : Mat) : List (List Int) :=
  (List.range m.nrSmp).map (fun i => (List.range m.nrVar).map (fun j => m.entry i j))

/-- A normalized one-axis selector, after `_unpack_index` has replaced
single integers with length-1 slices: a bounded slice, the full-axis slice
`slice(None)`, or an explicit position list (fancy indexing). -/
inductive Sel
  | slice (a b : Nat)
  | all
  | list (l : List Nat)
deriving DecidableEq, Repr

/-- The positions on an axis of size `n` addressed by a selector, in
selection order (Python slice semantics clamp the upper bound to `n`). -/
def Sel.positions (s : Sel) (n : Nat) : List Nat :=
  match s with
  | .all => List.range n
  | .slice a b => (List.range n).filter (fun i => decide (a ≤ i) && decide (i < b))
  | .list l => l

/-- One component of a raw index as the user writes it: a single integer,
a slice `a:b`, the bare colon, or a list of positions. -/
inductive Ix
  | int (i : Nat)
  | slice (a b : Nat)
  | all
  | list (l : List Nat)
deriving DecidableEq, Repr

/-- Normalization of one raw component, lines 267-270: a single integer
`i` becomes the slice `i:i+1` so results stay two-dimensional. -/
def Ix.toSel : Ix → Sel
  | .int i => .slice i (i + 1)
  | .slice a b => .slice a b
  | .all => .all
  | .list l => .list l

/-- A non-string index: either a `(row, column)` pair or a single
component, which `IndexMixin._unpack_index` pairs with `slice(None)`. -/
inductive NIndex
  | pair (r c : Ix)
  | single (r : Ix)
deriving DecidableEq, Repr

/-- `AnnData._unpack_index`, lines 265-271: split into row/column
components and normalize single integers to length-1 slices. -/
def NIndex.unpack : NIndex → Sel × Sel
  | .pair r c => (r.toSel, c.toSel)
  | .single r => (r.toSel, .all)

/-- An index as accepted by `__getitem__` / `__setitem__`: a plain string
(dataset-metadata key) or a positional index. -/
inductive Index
  | str (s : String)
  | nix (ni : NIndex)

/-- `X[smp, var]`: the sub-matrix addressed by two selectors. -/
def Mat.select (m : Mat) (rs cs : Sel) : Mat :=
  let rp := rs.positions m.nrSmp
  let cp := cs.positions m.nrVar
  { nrSmp := rp.length
    nrVar := cp.length
    entry := fun i j => m.entry (rp.getD i 0) (cp.getD j 0) }

/-- `X.T`, the transposed matrix (line 320). -/
def Mat.transposeMat (m : Mat) : Mat :=
  { nrSmp := m.nrVar, nrVar := m.nrSmp, entry := fun i j => m.entry j i }

/-- `X[samp, feat] = val` with a scalar value, line 302: numpy broadcasts
the scalar over the addressed sub-region; entries outside it keep their
old value. -/
def Mat.writeRegion (m : Mat) (rs cs : Sel) (v : Int) : Mat :=
  { m with entry := fun i j =>
      if i ∈ rs.positions m.nrSmp ∧ j ∈ cs.positions m.nrVar then v
      else m.entry i j }

/-- Lookup in an ordered association list (Python `d[k]` /
`d.get(k)`; keys are unique in a Python dict, so first match suffices). -/
def lookupA {α : Type} : List (String × α) → String → Option α
  | [], _ => none
  | (k', v) :: t, k => if k' = k then some v else lookupA t k

/-- Python `d[k] = v`: overwrite in place if the key exists (keeping its
position, as dicts do), else append at the end. -/
def updateA {α : Type} : List (String × α) → String → α → List (String × α)
  | [], k, v => [(k, v)]
  | (k', v') :: t, k, v =>
      if k' = k then (k, v) :: t else (k', v') :: updateA t k v

/-- A sequence of Python `d[k] = v` writes applied in order. -/
def applyUpdates {α : Type} (d : List (String × α)) : List (String × α) → List (String × α)
  | [] => d
  | (k, v) :: t => applyUpdates (updateA d k v) t

/-- Python `del d[k]` on a dict: remove the key (unique in a dict). -/
def eraseKey {α : Type} (k : String) : List (String × α) → List (String × α)
  | [] => []
  | p :: t => if p.1 = k then eraseKey k t else p :: eraseKey k t

def SMP_NAMES : String := "smp_names"

def VAR_NAMES : String := "var_names"

/-- A `BoundRecArr`: a numpy record array with an ordered list of field
names, the parallel columns, the designated label-column name
(`_name_col`), and whether the back-reference `_parent` is live. -/
structure RecArr where
  names : List String
  cols : List (List Val)
  nameCol : String
  bound : Bool
deriving DecidableEq, Repr

/-- `len(arr)`: the record array is created with shape
`(len(cols[0]),)` (line 56), so its length is the first column's
length. -/
def RecArr.len (r : RecArr) : Nat := (r.cols.headD []).length

/-- Field access `arr[name]`. -/
def RecArr.col (r : RecArr) (n : String) : Option (List Val) :=
  lookupA (r.names.zip r.cols) n

/-- The `columns` property, lines 65-67: every field name except the
label column. -/
def RecArr.columns (r : RecArr) : List String :=
  r.names.filter (fun c => c ≠ r.nameCol)

/-- Replace the column stored under a field name (helper for in-place
field assignment `arr[name] = value`). -/
def setColAux : List String → List (List Val) → String → List Val → List (List Val)
  | [], cs, _, _ => cs
  | _ :: _, [], _, _ => []
  | nm :: ns, c :: cs, n, v => (if nm = n then v else c) :: setColAux ns cs n v

/-- In-place field write `arr[name] = value` (columns only; names and
binding are untouched). -/
def RecArr.setCol (r : RecArr) (n : String) (v : List Val) : RecArr :=
  { r with cols := setColAux r.names r.cols n v }

/-- Row selection `arr[selector]` on a record array: each column is
restricted to the selected positions.  numpy slicing does not propagate
the `_parent` attribute (no `__array_finalize__` is defined), so the
result is unbound. -/
def RecArr.selectRows (r : RecArr) (ps : List Nat) : RecArr :=
  { r with
    cols := r.cols.map (fun c => ps.map (fun i => c.getD i (Val.int 0)))
    bound := false }

/-- A source accepted by `BoundRecArr.__new__` (lines 30-48): `None`, an
existing record array, or a dict-like mapping from column name to
sequence. -/
inductive RSource
  | none
  | recarr (names : List String) (cols : List (List Val))
  | map (pairs : List (String × List Val))
deriving DecidableEq, Repr

/-- `np.arange(n)` as a label column: the default 0-based integer
sequence. -/
def defaultLabels (n : Nat) : List Val :=
  (List.range n).map (fun i => Val.int (Int.ofNat i))

/-- All columns share the first column's length (a ragged source makes
the numpy field assignments of lines 60-61 fail). -/
def uniformLen (cols : List (List Val)) : Prop :=
  ∀ c ∈ cols, c.length = (cols.headD []).length

instance (cols : List (List Val)) : Decidable (uniformLen cols) := by
  unfold uniformLen; infer_instance

/-- The error outcomes of the embedded operations, with the numeric
payloads the Python messages interpolate. -/
inductive Err
  | storageType
  | badSource
  | tooMany (got : Nat) (len : Nat)
  | sampleMismatch (expected : Nat) (got : Nat)
  | featureMismatch (expected : Nat) (got : Nat)
  | convertedLength (key : String) (origLen : Nat) (lenSelf : Nat)
  | fieldNotFound (f : String)
  | broadcast (got : Nat) (expected : Nat)
  | notAMapping (k : String)
  | keyNotFound (k : String)
  | cannotDeleteArray
  | assertionFailed
deriving DecidableEq, Repr

/-- The record-array case of `BoundRecArr.__new__` (lines 34-36): fields
and columns are copied from the source.  The guard collects the numpy
failure modes (ragged columns, duplicate field names, name/column count
skew) that would make dtype construction or the field assignments of
lines 60-61 raise. -/
def mkFromRec (names : List String) (cols : List (List Val)) (nameCol : String)
    (bound : Bool) : Except Err RecArr :=
  if names.length = cols.length ∧ names.Nodup ∧ uniformLen cols then
    .ok ⟨names, cols, nameCol, bound⟩
  else .error .badSource

/-- The mapping case of `BoundRecArr.__new__` (lines 37-48): insertion
order is kept; when the label column is absent it is appended last as
`np.arange(len(cols[0]))`; an empty mapping makes `cols[0]` raise.  The
final guard is as in `mkFromRec`. -/
def mkFromMap (pairs : List (String × List Val)) (nameCol : String)
    (bound : Bool) : Except Err RecArr :=
  if pairs = [] then .error .badSource
  else
    let names0 := pairs.map Prod.fst
    let cols0 := pairs.map Prod.snd
    let names := if nameCol ∈ names0 then names0 else names0 ++ [nameCol]
    let cols := if nameCol ∈ names0 then cols0
                else cols0 ++ [defaultLabels (cols0.headD []).length]
    if names.Nodup ∧ uniformLen cols then
      .ok ⟨names, cols, nameCol, bound⟩
    else .error .badSource

/-- `BoundRecArr.__new__`, lines 30-63.  `source = None` produces the
lone label column `np.arange(nr_row)` (a `None` row count would make
`np.arange(None)` raise); the other cases dispatch to `mkFromRec` /
`mkFromMap`. -/
def mkBoundRecArr (source : RSource) (nameCol : String) (bound : Bool)
    (nrRow : Option Nat) : Except Err RecArr :=
  match source with
  | .none =>
      match nrRow with
      | some n => .ok ⟨[nameCol], [defaultLabels n], nameCol, bound⟩
      | none => .error .badSource
  | .recarr names cols => mkFromRec names cols nameCol bound
  | .map pairs => mkFromMap pairs nameCol bound

/-- A value stored in the legacy `ddata` bundle or in the dataset
metadata `_meta`: a matrix payload, a flat sequence, a nested
column mapping, or an opaque scalar. -/
inductive MVal
  | mat (m : Mat)
  | list (l : List Val)
  | map (pairs : List (String × List Val))
  | val (v : Val)

/-- The `AnnData` container: matrix, the two bound tables, visualization
hints and dataset metadata. -/
structure AnnData where
  X : Mat
  smp : RecArr
  var : RecArr
  vis : Vis
  meta : List (String × MVal)

instance : Inhabited AnnData :=
  ⟨⟨⟨0, 0, fun _ _ => 0⟩, ⟨[], [], "", false⟩, ⟨[], [], "", false⟩, [], []⟩⟩

/-- Which axis a table annotates. -/
inductive Axis
  | smp
  | var
deriving DecidableEq, Repr

/-- The label-column name belonging to an axis. -/
def axisNameCol : Axis → String
  | .smp => SMP_NAMES
  | .var => VAR_NAMES

/-- The attribute key (`'smp'` / `'var'`) of an axis. -/
def axisKey : Axis → String
  | .smp => "smp"
  | .var => "var"

/-- The table currently bound to an axis. -/
def AnnData.axisArr (a : AnnData) : Axis → RecArr
  | .smp => a.smp
  | .var => a.var

/-- The matrix size of an axis (`X.shape[dim]`). -/
def AnnData.axisSize (a : AnnData) : Axis → Nat
  | .smp => a.X.nrSmp
  | .var => a.X.nrVar

/-- Store a table into an axis slot (the final `object.__setattr__`). -/
def AnnData.putAxis (a : AnnData) : Axis → RecArr → AnnData
  | .smp, r => { a with smp := r }
  | .var, r => { a with var := r }

/-- The shape invariant of the container: each table is as long as the
matrix axis it annotates. -/
def AnnData.dimOK (a : AnnData) : Prop :=
  a.smp.len = a.X.nrSmp ∧ a.var.len = a.X.nrVar

/-- A value assigned to the `smp` / `var` attribute: either a raw source
(to be wrapped) or an object that already is a `BoundRecArr`. -/
inductive SetVal
  | raw (s : RSource)
  | bound (r : RecArr)

/-- `len(value_orig)` as interpolated into the error message of line 260:
for a mapping, Python `len` counts its keys; for a record array, its
rows.  (`len(None)` would raise, but a `None` source already fails during
wrapping, before the message is built.) -/
def origLen : RSource → Nat
  | .none => 0
  | .recarr _ cols => (cols.headD []).length
  | .map pairs => pairs.length

/-- `AnnData.__setattr__` for the keys `'smp'` and `'var'`, lines
253-263.  A value that already is a `BoundRecArr` is stored directly with
no validation at all.  Otherwise the original label column is read first
(line 256), the value is wrapped via `BoundRecArr(value, names_col,
self)` with `nr_row = None`, the wrapped length is checked against
`X.shape[dim]` — note that the error interpolates `len(value_orig)` and
`len(self)`, i.e. `X.shape[0]`, regardless of the axis — and when the
wrapped label column equals `np.arange(X.shape[dim])` the previous labels
are written over it in place (an elementwise numpy comparison of a string
column against `arange` is `False`, so only an integer column can
match). -/
def AnnData.setAxis (a : AnnData) (ax : Axis) (v : SetVal) : Except Err AnnData :=
  match v with
  | .bound r => .ok (a.putAxis ax r)
  | .raw s =>
      match (a.axisArr ax).col (axisNameCol ax) with
      | Option.none => .error (.fieldNotFound (axisNameCol ax))
      | some namesOrig =>
          match mkBoundRecArr s (axisNameCol ax) true Option.none with
          | .error e => .error e
          | .ok w =>
              if w.len ≠ a.axisSize ax then
                .error (.convertedLength (axisKey ax) (origLen s) a.X.nrSmp)
              else
                match w.col (axisNameCol ax) with
                | Option.none => .error (.fieldNotFound (axisNameCol ax))
                | some lc =>
                    if lc = defaultLabels (a.axisSize ax) then
                      if namesOrig.length ≠ w.len then
                        .error (.broadcast namesOrig.length w.len)
                      else .ok (a.putAxis ax (w.setCol (axisNameCol ax) namesOrig))
                    else .ok (a.putAxis ax w)

/-- `BoundRecArr.__setitem__`, lines 69-81, applied to the table in axis
slot `ax`.  The guard of line 70 is `if self._parent and key not in
self.dtype.names`: `self._parent` is evaluated for Python truthiness,
and since `AnnData` defines `__len__` (line 311, returning
`X.shape[0]`) and no `__bool__`, a parent container with zero rows is
falsy — so the append branch needs a non-null parent (`bound`) AND a
nonzero parent row count.  On that branch, a fresh key is a new-column
append: lengths above `len(self)` are rejected; otherwise
`append_fields` (with `usemask=False`, `fill_value=-1`) pads a shorter
column with the fill value to the table length, appends it after the
existing fields, rebuilds a `BoundRecArr` and reattaches it through the
parent's attribute setter, choosing the attribute from the table's own
`_name_col`.  Any other case writes the field in place (numpy raises on
an unknown field or a non-broadcastable length). -/
def AnnData.setAxisItem (a : AnnData) (ax : Axis) (k : String) (v : List Val) :
    Except Err AnnData :=
  let r := a.axisArr ax
  if r.bound = true ∧ a.X.nrSmp ≠ 0 ∧ k ∉ r.names then
    if v.length > r.len then .error (.tooMany v.length r.len)
    else
      let padded := v.take r.len ++ List.replicate (r.len - v.length) (Val.int (-1))
      match mkBoundRecArr (.recarr (r.names ++ [k]) (r.cols ++ [padded]))
          r.nameCol true Option.none with
      | .error e => .error e
      | .ok newArr =>
          a.setAxis (if r.nameCol = SMP_NAMES then .smp else .var) (.bound newArr)
  else
    if k ∈ r.names then
      if v.length = r.len then .ok (a.putAxis ax (r.setCol k v))
      else .error (.broadcast v.length r.len)
    else .error (.fieldNotFound k)

/-- Lines 193-203 of `__init__`: read the shape, build and bind both
tables, run `_check_dimensions` (lines 83-92, whose messages name the
expected and the actual count), and store `vis or {}` and the keyword
metadata.  `bound := true` records only that `_parent` is not `None`;
the Python truthiness of the parent (which is falsy for a 0-row
container, via `AnnData.__len__`) is evaluated at write time in
`setAxisItem`, exactly as line 70 does. -/
def AnnData.build (X : Mat) (smpSrc varSrc : RSource) (vis : Option Vis)
    (meta : List (String × MVal)) : Except Err AnnData :=
  match mkBoundRecArr smpSrc SMP_NAMES true (some X.nrSmp) with
  | .error e => .error e
  | .ok smpA =>
      match mkBoundRecArr varSrc VAR_NAMES true (some X.nrVar) with
      | .error e => .error e
      | .ok varA =>
          if smpA.len ≠ X.nrSmp then .error (.sampleMismatch X.nrSmp smpA.len)
          else if varA.len ≠ X.nrVar then .error (.featureMismatch X.nrVar varA.len)
          else .ok ⟨X, smpA, varA, vis.getD [], meta⟩

/-- The inner loops of lines 210-220: `self.smp[k] = v` (resp.
`self.var[k] = v`) for each column of a nested annotation mapping, in
order. -/
def applyCols (ax : Axis) : AnnData → List (String × List Val) → Except Err AnnData
  | a, [] => .ok a
  | a, (k, v) :: t =>
      match a.setAxisItem ax k v with
      | .ok a' => applyCols ax a' t
      | .error e => .error e

/-- One iteration of the `ddata.items()` loop, lines 205-220: keys
`'row'`/`'smp'` merge a nested mapping into the sample table,
`'col'`/`'var'` into the variable table (a non-mapping value makes
`.items()` raise), and every other key lands in `self._meta`. -/
def AnnData.applyDdataItem (a : AnnData) (kv : String × MVal) : Except Err AnnData :=
  if kv.1 = "row" ∨ kv.1 = "smp" then
    match kv.2 with
    | .map pairs => applyCols .smp a pairs
    | _ => .error (.notAMapping kv.1)
  else if kv.1 = "col" ∨ kv.1 = "var" then
    match kv.2 with
    | .map pairs => applyCols .var a pairs
    | _ => .error (.notAMapping kv.1)
  else .ok { a with meta := updateA a.meta kv.1 kv.2 }

/-- The `ddata.items()` loop itself, iterating the (already stripped)
bundle in insertion order. -/
def applyDdata : AnnData → List (String × MVal) → Except Err AnnData
  | a, [] => .ok a
  | a, kv :: t =>
      match a.applyDdataItem kv with
      | .ok a' => applyDdata a' t
      | .error e => .error e

/-- Lines 151-154: `'X'` in the bundle, if present, overrides the `X`
argument and is deleted from the bundle. -/
def stripX (d : List (String × MVal)) (X0 : Option MVal) :
    Option MVal × List (String × MVal) :=
  match lookupA d "X" with
  | some v => (some v, eraseKey "X" d)
  | Option.none => (X0, d)

/-- Lines 155-164: `'row_names'` takes precedence; only when it is absent
is `'smp_names'` consulted.  The found label list becomes a one-field
record array named `smp_names`; the consulted key is deleted. -/
def stripRow (d : List (String × MVal)) (smp0 : RSource) :
    Except Err (RSource × List (String × MVal)) :=
  match lookupA d "row_names" with
  | some (.list l) => .ok (.recarr [SMP_NAMES] [l], eraseKey "row_names" d)
  | some _ => .error .badSource
  | Option.none =>
      match lookupA d "smp_names" with
      | some (.list l) => .ok (.recarr [SMP_NAMES] [l], eraseKey "smp_names" d)
      | some _ => .error .badSource
      | Option.none => .ok (smp0, d)

/-- Lines 165-174: the symmetric translation of `'col_names'` /
`'var_names'` into a `var_names` record array. -/
def stripCol (d : List (String × MVal)) (var0 : RSource) :
    Except Err (RSource × List (String × MVal)) :=
  match lookupA d "col_names" with
  | some (.list l) => .ok (.recarr [VAR_NAMES] [l], eraseKey "col_names" d)
  | some _ => .error .badSource
  | Option.none =>
      match lookupA d "var_names" with
      | some (.list l) => .ok (.recarr [VAR_NAMES] [l], eraseKey "var_names" d)
      | some _ => .error .badSource
      | Option.none => .ok (var0, d)

/-- Lines 151-174 of `__init__`: translate the legacy bundle, mutating
it in place.  Label values must be flat sequences (`np.asarray` inside
`np.rec.fromarrays` fails on anything else).  Returns the resolved
matrix value, the two table sources, and the mutated bundle. -/
def translateDdata (d : List (String × MVal)) (X0 : Option MVal)
    (smp0 var0 : RSource) :
    Except Err (Option MVal × RSource × RSource × List (String × MVal)) :=
  match stripRow (stripX d X0).2 smp0 with
  | .error e => .error e
  | .ok (s1, d2) =>
      match stripCol d2 var0 with
      | .error e => .error e
      | .ok (v1, d3) => .ok ((stripX d X0).1, s1, v1, d3)

/-- The direct-argument core of `__init__` (no `ddata`): the storage-type
check of lines 176-185 rejects a missing matrix, then lines 193-203
build the container. -/
def AnnData.initCore (X : Option Mat) (smp var : RSource) (vis : Option Vis)
    (meta : List (String × MVal)) : Except Err AnnData :=
  match X with
  | some m => AnnData.build m smp var vis meta
  | Option.none => .error .storageType

/-- `AnnData.__init__`, lines 95-220, with the caller's `ddata` mapping
passed in and handed back, mutations included (Python mutates it in
place).  A `ddata` value under `'X'` that is not a matrix payload fails
the storage-type check of lines 176-185, exactly like a missing
matrix. -/
def AnnData.init (ddata : Option (List (String × MVal))) (X : Option Mat)
    (smp var : RSource) (vis : Option Vis) (meta : List (String × MVal)) :
    Except Err (AnnData × Option (List (String × MVal))) :=
  match ddata with
  | Option.none =>
      match AnnData.initCore X smp var vis meta with
      | .ok a => .ok (a, Option.none)
      | .error e => .error e
  | some d =>
      match translateDdata d (X.map MVal.mat) smp var with
      | .error e => .error e
      | .ok (xv, s1, v1, d3) =>
          match xv with
          | some (.mat m) =>
              match AnnData.build m s1 v1 vis meta with
              | .error e => .error e
              | .ok a0 =>
                  match applyDdata a0 d3 with
                  | .ok a1 => .ok (a1, some d3)
                  | .error e => .error e
          | _ => .error .storageType

/-- `__getitem__` with a string index, lines 283-284: a dataset-metadata
lookup. -/
def AnnData.getMeta (a : AnnData) (k : String) : Except Err MVal :=
  match lookupA a.meta k with
  | some v => .ok v
  | Option.none => .error (.keyNotFound k)

/-- `__getitem__` with a positional index, lines 285-294: unpack, slice
the matrix and both tables with the matching component, assert that the
sliced table lengths agree with the sliced matrix shape, and build a
brand-new container from the pieces, forwarding `vis` and the dataset
metadata. -/
def AnnData.getItem (a : AnnData) (ni : NIndex) : Except Err AnnData :=
  let st := ni.unpack
  let X' := a.X.select st.1 st.2
  let smpSel := a.smp.selectRows (st.1.positions a.smp.len)
  let varSel := a.var.selectRows (st.2.positions a.var.len)
  if smpSel.len = X'.nrSmp then
    if varSel.len = X'.nrVar then
      AnnData.initCore (some X') (.recarr smpSel.names smpSel.cols)
        (.recarr varSel.names varSel.cols) (some a.vis) a.meta
    else .error .assertionFailed
  else .error .assertionFailed

/-- `__setitem__`, lines 296-302: a string index writes dataset
metadata; any other index writes the addressed matrix sub-region and
nothing else.  The written value is modelled as a broadcast scalar. -/
def AnnData.setItem (a : AnnData) (ix : Index) (v : Int) : AnnData :=
  match ix with
  | .str k => { a with meta := updateA a.meta k (.val (.int v)) }
  | .nix ni =>
      let st := ni.unpack
      { a with X := a.X.writeRegion st.1 st.2 v }

/-- `__delitem__`, lines 273-279.  After `_unpack_index`, the first
statement is `del self.X[smp, var]`; numpy arrays and masked arrays
reject element deletion with `ValueError: cannot delete array elements`,
and sparse matrices define no `__delitem__` either, so the operation
raises unconditionally before any metadata handling (which would itself
fail: record arrays have no `.iloc`). -/
def AnnData.delItem (_a : AnnData) (ni : NIndex) : Except Err AnnData :=
  let _ := ni.unpack
  .error .cannotDeleteArray

/-- The field-name rewrite of lines 315-316: exactly `var_names` becomes
`smp_names`; every other name is unchanged. -/
def toSmpName (n : String) : String :=
  if n = VAR_NAMES then SMP_NAMES else n

/-- The field-name rewrite of lines 318-319: exactly `smp_names` becomes
`var_names`; every other name is unchanged. -/
def toVarName (n : String) : String :=
  if n = SMP_NAMES then VAR_NAMES else n

/-- `transpose`, lines 313-320: copy each table, rename only the label
column (`var_names` to `smp_names` and vice versa), and construct a new
container over `X.T` with the tables swapped, forwarding `vis` and the
dataset metadata. -/
def AnnData.transpose (a : AnnData) : Except Err AnnData :=
  AnnData.initCore (some a.X.transposeMat)
    (.recarr (a.var.names.map toSmpName) a.var.cols)
    (.recarr (a.smp.names.map toVarName) a.smp.cols)
    (some a.vis) a.meta

/-- `smp_keys`, lines 222-223: all field names except the first. -/
def AnnData.smp_keys (a : AnnData) : List String := a.smp.names.drop 1

/-- `var_keys`, lines 225-226: all field names except the first. -/
def AnnData.var_keys (a : AnnData) : List String := a.var.names.drop 1

/-- `to_dict`, lines 228-235: the base dict holds the matrix, the two
annotation sub-mappings (comprehensions over `smp_keys()` / `var_keys()`
filtered against the label-column name) and the two label sequences
(`self.smp_names` / `self.var_names`, i.e. field accesses that raise when
the label column is missing); the dataset-metadata entries are then
written over it key by key. -/
def AnnData.toDict (a : AnnData) : Except Err (List (String × MVal)) :=
  match a.smp.col SMP_NAMES, a.var.col VAR_NAMES with
  | some sn, some vn =>
      let smpD := (a.smp_keys.filter (fun k => k ≠ SMP_NAMES)).map
        (fun k => (k, (a.smp.col k).getD []))
      let varD := (a.var_keys.filter (fun k => k ≠ VAR_NAMES)).map
        (fun k => (k, (a.var.col k).getD []))
      let d0 : List (String × MVal) :=
        [("X", .mat a.X), ("smp", .map smpD), ("var", .map varD),
         ("smp_names", .list sn), ("var_names", .list vn)]
      .ok (applyUpdates d0 a.meta)
  | _, _ => .error (.fieldNotFound SMP_NAMES)

/-- Well-formedness of a record array as numpy guarantees it: as many
field names as columns, uniform column lengths, distinct field names. -/
def RecArr.WFr (r : RecArr) : Prop :=
  r.names.length = r.cols.length ∧ (∀ c ∈ r.cols, c.length = r.len) ∧ r.names.Nodup

/-- A valid container: well-formed tables of the right lengths, each
holding its own axis's label column and not the other axis's, with the
label-column names the constructor assigns. -/
def AnnData.WF (a : AnnData) : Prop :=
  a.smp.WFr ∧ a.var.WFr ∧
  a.smp.len = a.X.nrSmp ∧ a.var.len = a.X.nrVar ∧
  SMP_NAMES ∈ a.smp.names ∧ VAR_NAMES ∉ a.smp.names ∧
  VAR_NAMES ∈ a.var.names ∧ SMP_NAMES ∉ a.var.names ∧
  a.smp.nameCol = SMP_NAMES ∧ a.var.nameCol = VAR_NAMES ∧
  a.smp.bound = true ∧ a.var.bound = true

/-- The structural facts every container reachable through `__init__`
satisfies and keeps through the bound-table write path: well-formed
tables of the right lengths, correctly named label columns, live
back-references. -/
def AnnData.tablesOK (a : AnnData) : Prop :=
  a.smp.WFr ∧ a.var.WFr ∧ a.smp.len = a.X.nrSmp ∧ a.var.len = a.X.nrVar ∧
  a.smp.nameCol = SMP_NAMES ∧ a.var.nameCol = VAR_NAMES ∧
  a.smp.bound = true ∧ a.var.bound = true

instance (r : RecArr) : Decidable r.WFr := by
  unfold RecArr.WFr
  infer_instance

instance (a : AnnData) : Decidable a.WF := by
  unfold AnnData.WF
  infer_instance

instance (a : AnnData) : Decidable a.dimOK := by
  unfold AnnData.dimOK
  infer_instance

instance (a : AnnData) : Decidable a.tablesOK := by
  unfold AnnData.tablesOK
  infer_instance

/-! ### Concrete containers used by the claims -/

/-- The 2x3 test matrix of the source's own tests. -/
def M23 : Mat := Mat.ofLists [[1, 2, 3], [4, 5, 6]]

/-- Direct construction `AnnData(X=..., smp=..., var=...)`. -/
def annOf (X : Mat) (s v : RSource) : Except Err AnnData :=
  (AnnData.init Option.none (some X) s v Option.none []).map Prod.fst

/-- `AnnData(np.array([[1,2,3],[4,5,6]]))` with default tables. -/
def mat23 : AnnData := (annOf M23 .none .none).toOption.getD default

/-- `AnnData(M23, dict(smp_names=['A','B']), dict(var_names=['a','b','c']))`. -/
def annAB : AnnData :=
  (annOf M23 (.map [("smp_names", [.str "A", .str "B"])])
    (.map [("var_names", [.str "a", .str "b", .str "c"])])).toOption.getD default

/-- `AnnData(M23, dict(Smp=['A','B']))`: one annotation column, label
column synthesized after it. -/
def annSmp : AnnData :=
  (annOf M23 (.map [("Smp", [.str "A", .str "B"])]) .none).toOption.getD default

/-- The observable summary a sliced container is compared by: matrix
content and the two table lengths. -/
def obs (a : AnnData) : List (List Int) × Nat × Nat :=
  (a.X.toLists, a.smp.len, a.var.len)

/-- A detached 3-row `BoundRecArr` (for instance `other.smp` of a 3-row
container). -/
def r3 : RecArr := ⟨[SMP_NAMES], [defaultLabels 3], SMP_NAMES, true⟩

/-- A 0x3 matrix (`np.zeros((0, 3))`): zero rows, three columns. -/
def M03 : Mat := ⟨0, 3, fun _ _ => 0⟩

/-- `AnnData(np.zeros((0, 3)))`: a constructible container with zero
rows, whose Python truthiness is `False` because `len(container) = 0`. -/
def ann03 : AnnData := (annOf M03 .none .none).toOption.getD default

/-- A legacy bundle carrying both the `'row_names'` and the `'smp_names'`
alias of the row-label key. -/
def dd0 : List (String × MVal) :=
  [("X", .mat M23), ("row_names", .list [.str "A", .str "B"]),
   ("smp_names", .list [.int 7, .int 8])]

/-- The container built from the bundle `dd0`. -/
def annD0 : AnnData :=
  (AnnData.init (some dd0) Option.none .none .none Option.none
    []).toOption.map Prod.fst |>.getD default

/-- `AnnData(M23, dict(smp_names=..., Smp2=...), meta note=5)`: used to
exercise serialization with an annotation column after the label column
and one dataset-metadata key. -/
def ann7 : AnnData :=
  (AnnData.init Option.none (some M23)
    (.map [("smp_names", [.str "A", .str "B"]), ("Smp2", [.str "C", .str "D"])])
    .none Option.none [("note", .val (.int 5))]).toOption.map Prod.fst |>.getD default

/-- The table that wrapping `dict(a=[10,20])` for the sample axis
produces: the supplied column plus the synthesized default label
column. -/
def wAB : RecArr :=
  ⟨["a", SMP_NAMES], [[.int 10, .int 20], defaultLabels 2], SMP_NAMES, true⟩

/-! ### Association-list lemmas -/

theorem lookupA_eraseKey_self {α : Type} (l : List (String × α)) (k : String) :
    lookupA (eraseKey k l) k = Option.none := by
  induction l with
  | nil => rfl
  | cons p t ih =>
      by_cases h : p.1 = k
      · simp [eraseKey, h, ih]
      · simp [eraseKey, lookupA, h, ih]

theorem lookupA_eraseKey_ne {α : Type} (l : List (String × α)) {k k' : String}
    (h : k ≠ k') : lookupA (eraseKey k' l) k = lookupA l k := by
  induction l with
  | nil => rfl
  | cons p t ih =>
      by_cases hp : p.1 = k' <;> by_cases hk : p.1 = k
      · exact absurd (hk.symm.trans hp) h
      · simp [eraseKey, lookupA, hp, hk, ih, h, Ne.symm h]
      · simp [eraseKey, lookupA, hp, hk, ih, h, Ne.symm h]
      · simp [eraseKey, lookupA, hp, hk, ih, h, Ne.symm h]

theorem lookupA_updateA_self {α : Type} (l : List (String × α)) (k : String) (v : α) :
    lookupA (updateA l k v) k = some v := by
  induction l with
  | nil => simp [updateA, lookupA]
  | cons p t ih =>
      by_cases h : p.1 = k
      · simp [updateA, lookupA, h]
      · simp [updateA, lookupA, h, ih]

theorem lookupA_updateA_ne {α : Type} (l : List (String × α)) {k k' : String} (v : α)
    (h : k' ≠ k) : lookupA (updateA l k' v) k = lookupA l k := by
  induction l with
  | nil => simp [updateA, lookupA, h]
  | cons p t ih =>
      by_cases hp : p.1 = k'
      · simp [updateA, lookupA, hp, h, ih]
      · simp [updateA, lookupA, hp, ih]

theorem lookupA_applyUpdates_not_mem {α : Type} {u : List (String × α)}
    (d : List (String × α)) {k : String} (h : ∀ p ∈ u, p.1 ≠ k) :
    lookupA (applyUpdates d u) k = lookupA d k := by
  induction u generalizing d with
  | nil => rfl
  | cons p t ih =>
      obtain ⟨k0, v0⟩ := p
      have hp : k0 ≠ k := h (k0, v0) (List.mem_cons_self _ t)
      have ht : ∀ q ∈ t, q.1 ≠ k := fun q hq => h q (List.mem_cons_of_mem _ hq)
      show lookupA (applyUpdates (updateA d k0 v0) t) k = lookupA d k
      rw [ih (updateA d k0 v0) ht, lookupA_updateA_ne d v0 hp]

theorem lookupA_applyUpdates_mem {α : Type} {u : List (String × α)}
    (d : List (String × α)) {k : String} {v : α}
    (hn : (u.map Prod.fst).Nodup) (hm : (k, v) ∈ u) :
    lookupA (applyUpdates d u) k = some v := by
  induction u generalizing d with
  | nil => cases hm
  | cons p t ih =>
      obtain ⟨k0, v0⟩ := p
      show lookupA (applyUpdates (updateA d k0 v0) t) k = some v
      have hn2 : (k0 :: t.map Prod.fst).Nodup := hn
      have hk0 : k0 ∉ t.map Prod.fst := (List.nodup_cons.1 hn2).1
      have htl : (t.map Prod.fst).Nodup := (List.nodup_cons.1 hn2).2
      rcases List.mem_cons.1 hm with h | h
      · have hk : k0 = k := congrArg Prod.fst h.symm
        have hv : v0 = v := congrArg Prod.snd h.symm
        have ht : ∀ q ∈ t, q.1 ≠ k := fun q hq hqk =>
          hk0 (List.mem_map.2 ⟨q, hq, hqk.trans hk.symm⟩)
        rw [lookupA_applyUpdates_not_mem (updateA d k0 v0) ht, hk, hv,
          lookupA_updateA_self]
      · exact ih (updateA d k0 v0) htl h

theorem lookupA_mem {α : Type} {l : List (String × α)} {k : String} {v : α}
    (h : lookupA l k = some v) : (k, v) ∈ l := by
  induction l with
  | nil => cases h
  | cons p t ih =>
      obtain ⟨k0, v0⟩ := p
      have h' : (if k0 = k then some v0 else lookupA t k) = some v := h
      by_cases hp : k0 = k
      · rw [if_pos hp] at h'
        have hv : v0 = v := (Option.some.injEq _ _).mp h'
        exact List.mem_cons.2 (Or.inl (by rw [← hp, ← hv]))
      · rw [if_neg hp] at h'
        exact List.mem_cons.2 (Or.inr (ih h'))

theorem eraseKey_sublist {α : Type} (k : String) (l : List (String × α)) :
    (eraseKey k l).Sublist l := by
  induction l with
  | nil => exact List.Sublist.slnil
  | cons p t ih =>
      by_cases h : p.1 = k
      · have he : eraseKey k (p :: t) = eraseKey k t := by
          show (if p.1 = k then eraseKey k t else p :: eraseKey k t)
            = eraseKey k t
          rw [if_pos h]
        rw [he]
        exact ih.cons p
      · have he : eraseKey k (p :: t) = p :: eraseKey k t := by
          show (if p.1 = k then eraseKey k t else p :: eraseKey k t)
            = p :: eraseKey k t
          rw [if_neg h]
        rw [he]
        exact ih.cons₂ p

theorem keys_nodup_eraseKey {α : Type} (k : String) {l : List (String × α)}
    (h : (l.map Prod.fst).Nodup) : ((eraseKey k l).map Prod.fst).Nodup :=
  h.sublist ((eraseKey_sublist k l).map Prod.fst)

/-! ### Record-array construction lemmas -/

theorem pad_length {n : Nat} {v : List Val} (h : v.length ≤ n) :
    (v.take n ++ List.replicate (n - v.length) (Val.int (-1))).length = n := by
  simp [List.length_take]
  omega

theorem uniform_append_pad {cols : List (List Val)} {p : List Val}
    (hu : uniformLen cols) (hp : p.length = (cols.headD []).length) :
    uniformLen (cols ++ [p]) := by
  intro c hc
  cases cols with
  | nil =>
      simp at hc
      subst hc
      simp [hp]
  | cons c0 rest =>
      rcases List.mem_append.1 hc with h | h
      · simpa using hu c h
      · simp at h
        subst h
        simpa using hp

theorem headD_append_pad {cols : List (List Val)} {p : List Val}
    (hp : p.length = (cols.headD []).length) :
    (((cols ++ [p]).headD []) : List Val).length = (cols.headD []).length := by
  cases cols with
  | nil => simpa using hp
  | cons c0 rest => rfl

theorem mkFromRec_ok {names : List String} {cols : List (List Val)}
    {nc : String} {b : Bool}
    (h1 : names.length = cols.length) (h2 : names.Nodup) (h3 : uniformLen cols) :
    mkFromRec names cols nc b = .ok ⟨names, cols, nc, b⟩ := by
  unfold mkFromRec
  rw [if_pos ⟨h1, h2, h3⟩]

theorem mkBound_recarr_ok {names : List String} {cols : List (List Val)}
    {nc : String} {b : Bool} {nr : Option Nat}
    (h1 : names.length = cols.length) (h2 : names.Nodup) (h3 : uniformLen cols) :
    mkBoundRecArr (.recarr names cols) nc b nr = .ok ⟨names, cols, nc, b⟩ :=
  mkFromRec_ok h1 h2 h3

theorem mkFromRec_inv {names : List String} {cols : List (List Val)}
    {nc : String} {b : Bool} {r : RecArr}
    (h : mkFromRec names cols nc b = .ok r) :
    r = ⟨names, cols, nc, b⟩ ∧ names.length = cols.length ∧ names.Nodup ∧
      uniformLen cols := by
  unfold mkFromRec at h
  by_cases hc : names.length = cols.length ∧ names.Nodup ∧ uniformLen cols
  · rw [if_pos hc] at h
    exact ⟨((Except.ok.injEq _ _).mp h).symm, hc⟩
  · rw [if_neg hc] at h
    cases h

theorem mkFromMap_ok_wfr {pairs : List (String × List Val)} {nc : String}
    {b : Bool} {r : RecArr} (h : mkFromMap pairs nc b = .ok r) :
    r.WFr ∧ r.nameCol = nc ∧ r.bound = b ∧ nc ∈ r.names := by
  unfold mkFromMap at h
  by_cases hp : pairs = []
  · rw [if_pos hp] at h; cases h
  · rw [if_neg hp] at h
    simp only at h
    by_cases hin : nc ∈ pairs.map Prod.fst
    · rw [if_pos hin, if_pos hin] at h
      by_cases hc : (pairs.map Prod.fst).Nodup ∧ uniformLen (pairs.map Prod.snd)
      · rw [if_pos hc] at h
        have hr : r = ⟨pairs.map Prod.fst, pairs.map Prod.snd, nc, b⟩ :=
          ((Except.ok.injEq _ _).mp h).symm
        subst hr
        exact ⟨⟨by simp, hc.2, hc.1⟩, rfl, rfl, hin⟩
      · rw [if_neg hc] at h; cases h
    · rw [if_neg hin, if_neg hin] at h
      by_cases hc : (pairs.map Prod.fst ++ [nc]).Nodup ∧
          uniformLen (pairs.map Prod.snd ++
            [defaultLabels ((pairs.map Prod.snd).headD []).length])
      · rw [if_pos hc] at h
        have hr : r = ⟨pairs.map Prod.fst ++ [nc],
            pairs.map Prod.snd ++
              [defaultLabels ((pairs.map Prod.snd).headD []).length], nc, b⟩ :=
          ((Except.ok.injEq _ _).mp h).symm
        subst hr
        exact ⟨⟨by simp, hc.2, hc.1⟩, rfl, rfl, by simp⟩
      · rw [if_neg hc] at h; cases h

theorem mkBound_ok_wfr {s : RSource} {nc : String} {b : Bool} {nr : Option Nat}
    {r : RecArr} (h : mkBoundRecArr s nc b nr = .ok r) :
    r.WFr ∧ r.nameCol = nc ∧ r.bound = b := by
  cases s with
  | none =>
      cases nr with
      | none => cases h
      | some n =>
          have hr : r = ⟨[nc], [defaultLabels n], nc, b⟩ :=
            ((Except.ok.injEq _ _).mp h).symm
          subst hr
          refine ⟨⟨rfl, ?_, by simp⟩, rfl, rfl⟩
          intro c hc
          simp at hc
          subst hc
          rfl
  | recarr names cols =>
      obtain ⟨hr, h1, h2, h3⟩ := mkFromRec_inv h
      subst hr
      exact ⟨⟨h1, h3, h2⟩, rfl, rfl⟩
  | map pairs =>
      obtain ⟨h1, h2, h3, _⟩ := mkFromMap_ok_wfr h
      exact ⟨h1, h2, h3⟩

/-! ### In-place column-write lemmas -/

theorem setColAux_length (ns : List String) (cs : List (List Val)) (k : String)
    (v : List Val) : (setColAux ns cs k v).length = cs.length := by
  induction ns generalizing cs with
  | nil => rfl
  | cons n ns ih =>
      cases cs with
      | nil => rfl
      | cons c cs => simp [setColAux, ih]

theorem setColAux_mem {ns : List String} {cs : List (List Val)} {k : String}
    {v : List Val} : ∀ c ∈ setColAux ns cs k v, c = v ∨ c ∈ cs := by
  induction ns generalizing cs with
  | nil => exact fun c hc => Or.inr hc
  | cons n ns ih =>
      cases cs with
      | nil => intro c hc; cases hc
      | cons c0 cs =>
          intro c hc
          rcases List.mem_cons.1 hc with h | h
          · by_cases hnk : n = k
            · rw [if_pos hnk] at h
              exact Or.inl h
            · rw [if_neg hnk] at h
              exact Or.inr (by rw [h]; exact List.mem_cons_self c0 cs)
          · rcases ih c h with h' | h'
            · exact Or.inl h'
            · exact Or.inr (List.mem_cons_of_mem c0 h')

theorem setCol_len {r : RecArr} {k : String} {v : List Val}
    (hl : r.names.length = r.cols.length) (hv : v.length = r.len) :
    (r.setCol k v).len = r.len := by
  obtain ⟨ns, cs, nc, b⟩ := r
  cases ns with
  | nil =>
      cases cs with
      | nil => rfl
      | cons c cs => cases hl
  | cons n ns =>
      cases cs with
      | nil => rfl
      | cons c cs =>
          show (((if n = k then v else c) :: setColAux ns cs k v).headD []).length
            = ((c :: cs).headD []).length
          by_cases hnk : n = k
          · rw [if_pos hnk]
            exact hv
          · rw [if_neg hnk]
            rfl

theorem setCol_pres {r : RecArr} {k : String} {v : List Val}
    (hw : r.WFr) (hv : v.length = r.len) :
    (r.setCol k v).WFr ∧ (r.setCol k v).len = r.len := by
  have hlen := @setCol_len r k v hw.1 hv
  refine ⟨⟨?_, ?_, hw.2.2⟩, hlen⟩
  · show r.names.length = (setColAux r.names r.cols k v).length
    rw [setColAux_length]
    exact hw.1
  · intro c hc
    show c.length = (r.setCol k v).len
    rw [hlen]
    rcases setColAux_mem c hc with h | h
    · rw [h]; exact hv
    · exact hw.2.1 c h

/-! ### Attribute-setter and bound-write lemmas -/

theorem putAxis_X (a : AnnData) (ax : Axis) (r : RecArr) :
    (a.putAxis ax r).X = a.X := by
  cases ax <;> rfl

theorem putAxis_meta (a : AnnData) (ax : Axis) (r : RecArr) :
    (a.putAxis ax r).meta = a.meta := by
  cases ax <;> rfl

theorem tablesOK_putAxis {a : AnnData} {ax : Axis} {r : RecArr} (ht : a.tablesOK)
    (hw : r.WFr) (hlen : r.len = a.axisSize ax) (hnc : r.nameCol = axisNameCol ax)
    (hb : r.bound = true) : (a.putAxis ax r).tablesOK := by
  obtain ⟨h1, h2, h3, h4, h5, h6, h7, h8⟩ := ht
  cases ax
  · exact ⟨hw, h2, hlen, h4, hnc, h6, hb, h8⟩
  · exact ⟨h1, hw, h3, hlen, h5, hnc, h7, hb⟩

theorem setAxis_bound_eq (a : AnnData) (ax : Axis) (r : RecArr) :
    a.setAxis ax (.bound r) = .ok (a.putAxis ax r) := rfl

theorem setAxisItem_pres {a : AnnData} {ax : Axis} {k : String} {v : List Val}
    {a' : AnnData} (ht : a.tablesOK) (h : a.setAxisItem ax k v = .ok a') :
    a'.tablesOK ∧ a'.X = a.X ∧ a'.meta = a.meta := by
  unfold AnnData.setAxisItem at h
  by_cases hnew : (a.axisArr ax).bound = true ∧ a.X.nrSmp ≠ 0 ∧
      k ∉ (a.axisArr ax).names
  · rw [if_pos hnew] at h
    by_cases hlong : v.length > (a.axisArr ax).len
    · rw [if_pos hlong] at h
      cases h
    · rw [if_neg hlong] at h
      simp only at h
      split at h
      next e hm => cases h
      next newArr hm =>
          obtain ⟨hne, hlen2, hnd, hun⟩ := mkFromRec_inv hm
          have hax : (if (a.axisArr ax).nameCol = SMP_NAMES then Axis.smp else Axis.var)
              = ax := by
            cases ax
            · have hx : (a.axisArr Axis.smp).nameCol = SMP_NAMES := ht.2.2.2.2.1
              rw [hx, if_pos rfl]
            · have hx : (a.axisArr Axis.var).nameCol = VAR_NAMES := ht.2.2.2.2.2.1
              rw [hx, if_neg (by decide)]
          rw [hax, setAxis_bound_eq] at h
          have ha' : a' = a.putAxis ax newArr := ((Except.ok.injEq _ _).mp h).symm
          subst ha'
          have hpadlen : (v.take (a.axisArr ax).len ++
              List.replicate ((a.axisArr ax).len - v.length) (Val.int (-1))).length
              = (a.axisArr ax).len := pad_length (Nat.le_of_not_lt hlong)
          have hnewlen : newArr.len = (a.axisArr ax).len := by
            rw [hne]
            show (((a.axisArr ax).cols ++ [_]).headD []).length = (a.axisArr ax).len
            exact headD_append_pad hpadlen
          have haxlen : (a.axisArr ax).len = a.axisSize ax := by
            cases ax
            · exact ht.2.2.1
            · exact ht.2.2.2.1
          have hnc2 : newArr.nameCol = axisNameCol ax := by
            rw [hne]
            show (a.axisArr ax).nameCol = axisNameCol ax
            cases ax
            · exact ht.2.2.2.2.1
            · exact ht.2.2.2.2.2.1
          refine ⟨tablesOK_putAxis ht (mkBound_ok_wfr hm).1 (hnewlen.trans haxlen)
            hnc2 (by rw [hne]), putAxis_X a ax newArr, putAxis_meta a ax newArr⟩
  · rw [if_neg hnew] at h
    by_cases hmem : k ∈ (a.axisArr ax).names
    · rw [if_pos hmem] at h
      by_cases hvl : v.length = (a.axisArr ax).len
      · rw [if_pos hvl] at h
        have ha' : a' = a.putAxis ax ((a.axisArr ax).setCol k v) :=
          ((Except.ok.injEq _ _).mp h).symm
        subst ha'
        have hwfr : (a.axisArr ax).WFr := by
          cases ax
          · exact ht.1
          · exact ht.2.1
        obtain ⟨hw2, hl2⟩ := setCol_pres hwfr hvl
        have haxlen : (a.axisArr ax).len = a.axisSize ax := by
          cases ax
          · exact ht.2.2.1
          · exact ht.2.2.2.1
        have hnc2 : ((a.axisArr ax).setCol k v).nameCol = axisNameCol ax := by
          show (a.axisArr ax).nameCol = axisNameCol ax
          cases ax
          · exact ht.2.2.2.2.1
          · exact ht.2.2.2.2.2.1
        have hb2 : ((a.axisArr ax).setCol k v).bound = true := by
          show (a.axisArr ax).bound = true
          cases ax
          · exact ht.2.2.2.2.2.2.1
          · exact ht.2.2.2.2.2.2.2
        exact ⟨tablesOK_putAxis ht hw2 (hl2.trans haxlen) hnc2 hb2,
          putAxis_X a ax _, putAxis_meta a ax _⟩
      · rw [if_neg hvl] at h
        cases h
    · rw [if_neg hmem] at h
      cases h

theorem dimOK_putAxis {a : AnnData} {ax : Axis} {r : RecArr} (ha : a.dimOK)
    (hlen : r.len = a.axisSize ax) : (a.putAxis ax r).dimOK := by
  cases ax
  · exact ⟨hlen, ha.2⟩
  · exact ⟨ha.1, hlen⟩

theorem setAxis_raw_dimOK {a : AnnData} {ax : Axis} {s : RSource} {a' : AnnData}
    (ha : a.dimOK) (h : a.setAxis ax (.raw s) = .ok a') : a'.dimOK := by
  unfold AnnData.setAxis at h
  dsimp only at h
  split at h
  next hno => cases h
  next namesOrig hno =>
    split at h
    next e hw => cases h
    next w hw =>
      by_cases hlen : w.len ≠ a.axisSize ax
      · rw [if_pos hlen] at h
        cases h
      · rw [if_neg hlen] at h
        have hlen' : w.len = a.axisSize ax := not_ne_iff.mp hlen
        split at h
        next hlc => cases h
        next lc hlc =>
          by_cases hd : lc = defaultLabels (a.axisSize ax)
          · rw [if_pos hd] at h
            by_cases ho : namesOrig.length ≠ w.len
            · rw [if_pos ho] at h
              cases h
            · rw [if_neg ho] at h
              have ha' : a' = a.putAxis ax (w.setCol (axisNameCol ax) namesOrig) :=
                ((Except.ok.injEq _ _).mp h).symm
              subst ha'
              have hwf := (mkBound_ok_wfr hw).1
              have hl2 :=
                (@setCol_pres w (axisNameCol ax) namesOrig hwf (not_ne_iff.mp ho)).2
              exact dimOK_putAxis ha (hl2.trans hlen')
          · rw [if_neg hd] at h
            have ha' : a' = a.putAxis ax w := ((Except.ok.injEq _ _).mp h).symm
            subst ha'
            exact dimOK_putAxis ha hlen'

theorem setAxis_raw_eq {a : AnnData} {ax : Axis} {s : RSource} {w : RecArr}
    {namesOrig lc : List Val}
    (hno : (a.axisArr ax).col (axisNameCol ax) = some namesOrig)
    (hw : mkBoundRecArr s (axisNameCol ax) true Option.none = .ok w)
    (hlen : w.len = a.axisSize ax)
    (hlc : w.col (axisNameCol ax) = some lc)
    (horig : namesOrig.length = w.len) :
    a.setAxis ax (.raw s) =
      if lc = defaultLabels (a.axisSize ax) then
        .ok (a.putAxis ax (w.setCol (axisNameCol ax) namesOrig))
      else .ok (a.putAxis ax w) := by
  unfold AnnData.setAxis
  rw [hno]
  dsimp only
  rw [hw]
  dsimp only
  rw [if_neg (not_ne_iff.2 hlen), hlc]
  dsimp only
  by_cases hd : lc = defaultLabels (a.axisSize ax)
  · rw [if_pos hd, if_pos hd, if_neg (not_ne_iff.2 horig)]
  · rw [if_neg hd, if_neg hd]

/-! ### Construction lemmas -/

theorem build_tablesOK {X : Mat} {s v : RSource} {vis : Option Vis}
    {meta : List (String × MVal)} {a : AnnData}
    (h : AnnData.build X s v vis meta = .ok a) :
    a.tablesOK ∧ a.X = X := by
  unfold AnnData.build at h
  split at h
  next e hs => cases h
  next smpA hs =>
    split at h
    next e hv => cases h
    next varA hv =>
      by_cases h1 : smpA.len ≠ X.nrSmp
      · rw [if_pos h1] at h
        cases h
      · rw [if_neg h1] at h
        by_cases h2 : varA.len ≠ X.nrVar
        · rw [if_pos h2] at h
          cases h
        · rw [if_neg h2] at h
          have ha : a = ⟨X, smpA, varA, vis.getD [], meta⟩ :=
            ((Except.ok.injEq _ _).mp h).symm
          subst ha
          obtain ⟨hsw, hsn, hsb⟩ := mkBound_ok_wfr hs
          obtain ⟨hvw, hvn, hvb⟩ := mkBound_ok_wfr hv
          exact ⟨⟨hsw, hvw, not_ne_iff.mp h1, not_ne_iff.mp h2, hsn, hvn, hsb, hvb⟩,
            rfl⟩

theorem applyCols_pres {ax : Axis} {ps : List (String × List Val)} :
    ∀ {a a' : AnnData}, a.tablesOK → applyCols ax a ps = .ok a' →
      a'.tablesOK ∧ a'.X = a.X := by
  induction ps with
  | nil =>
      intro a a' ht h
      cases h
      exact ⟨ht, rfl⟩
  | cons p t ih =>
      intro a a' ht h
      obtain ⟨k0, v0⟩ := p
      have h' : (match a.setAxisItem ax k0 v0 with
          | .ok a'' => applyCols ax a'' t
          | .error e => .error e) = .ok a' := h
      split at h'
      next a'' hm =>
        obtain ⟨ht', hX, _⟩ := setAxisItem_pres ht hm
        obtain ⟨ht'', hX'⟩ := ih ht' h'
        exact ⟨ht'', hX'.trans hX⟩
      next e hm => cases h'

theorem applyDdataItem_pres {a a' : AnnData} {kv : String × MVal}
    (ht : a.tablesOK) (h : a.applyDdataItem kv = .ok a') :
    a'.tablesOK ∧ a'.X = a.X := by
  unfold AnnData.applyDdataItem at h
  by_cases h1 : kv.1 = "row" ∨ kv.1 = "smp"
  · rw [if_pos h1] at h
    cases hkv : kv.2 with
    | map pairs =>
        rw [hkv] at h
        exact applyCols_pres ht h
    | mat m => rw [hkv] at h; cases h
    | list l => rw [hkv] at h; cases h
    | val v => rw [hkv] at h; cases h
  · rw [if_neg h1] at h
    by_cases h2 : kv.1 = "col" ∨ kv.1 = "var"
    · rw [if_pos h2] at h
      cases hkv : kv.2 with
      | map pairs =>
          rw [hkv] at h
          exact applyCols_pres ht h
      | mat m => rw [hkv] at h; cases h
      | list l => rw [hkv] at h; cases h
      | val v => rw [hkv] at h; cases h
    · rw [if_neg h2] at h
      cases h
      exact ⟨ht, rfl⟩

theorem applyDdata_pres {l : List (String × MVal)} :
    ∀ {a a' : AnnData}, a.tablesOK → applyDdata a l = .ok a' →
      a'.tablesOK ∧ a'.X = a.X := by
  induction l with
  | nil =>
      intro a a' ht h
      cases h
      exact ⟨ht, rfl⟩
  | cons kv t ih =>
      intro a a' ht h
      have h' : (match a.applyDdataItem kv with
          | .ok a'' => applyDdata a'' t
          | .error e => .error e) = .ok a' := h
      split at h'
      next a'' hm =>
        obtain ⟨ht', hX⟩ := applyDdataItem_pres ht hm
        obtain ⟨ht'', hX'⟩ := ih ht' h'
        exact ⟨ht'', hX'.trans hX⟩
      next e hm => cases h'

theorem setAxisItem_meta {a : AnnData} {ax : Axis} {k : String} {v : List Val}
    {a' : AnnData} (h : a.setAxisItem ax k v = .ok a') : a'.meta = a.meta := by
  unfold AnnData.setAxisItem at h
  by_cases hnew : (a.axisArr ax).bound = true ∧ a.X.nrSmp ≠ 0 ∧
      k ∉ (a.axisArr ax).names
  · rw [if_pos hnew] at h
    by_cases hlong : v.length > (a.axisArr ax).len
    · rw [if_pos hlong] at h
      cases h
    · rw [if_neg hlong] at h
      simp only at h
      split at h
      next e hm => cases h
      next newArr hm =>
        rw [setAxis_bound_eq] at h
        have ha' : a' = a.putAxis
            (if (a.axisArr ax).nameCol = SMP_NAMES then Axis.smp else Axis.var)
            newArr := ((Except.ok.injEq _ _).mp h).symm
        rw [ha']
        exact putAxis_meta a _ newArr
  · rw [if_neg hnew] at h
    by_cases hmem : k ∈ (a.axisArr ax).names
    · rw [if_pos hmem] at h
      by_cases hvl : v.length = (a.axisArr ax).len
      · rw [if_pos hvl] at h
        have ha' : a' = a.putAxis ax ((a.axisArr ax).setCol k v) :=
          ((Except.ok.injEq _ _).mp h).symm
        rw [ha']
        exact putAxis_meta a ax _
      · rw [if_neg hvl] at h
        cases h
    · rw [if_neg hmem] at h
      cases h

theorem applyCols_meta {ax : Axis} {ps : List (String × List Val)} :
    ∀ {a a' : AnnData}, applyCols ax a ps = .ok a' → a'.meta = a.meta := by
  induction ps with
  | nil =>
      intro a a' h
      cases h
      rfl
  | cons p t ih =>
      intro a a' h
      obtain ⟨k0, v0⟩ := p
      have h' : (match a.setAxisItem ax k0 v0 with
          | .ok a'' => applyCols ax a'' t
          | .error e => .error e) = .ok a' := h
      split at h'
      next a'' hm =>
        rw [ih h', setAxisItem_meta hm]
      next e hm => cases h'

theorem applyDdataItem_meta_plain {a a' : AnnData} {k0 : String} {v0 : MVal}
    (hr : ¬(k0 = "row" ∨ k0 = "smp")) (hc : ¬(k0 = "col" ∨ k0 = "var"))
    (h : a.applyDdataItem (k0, v0) = .ok a') :
    a'.meta = updateA a.meta k0 v0 := by
  unfold AnnData.applyDdataItem at h
  dsimp only at h
  rw [if_neg hr, if_neg hc] at h
  have he2 := ((Except.ok.injEq _ _).mp h).symm
  rw [he2]

theorem applyDdataItem_meta_lookup {a a' : AnnData} {kv : String × MVal}
    {k : String} (hne : kv.1 ≠ k) (h : a.applyDdataItem kv = .ok a') :
    lookupA a'.meta k = lookupA a.meta k := by
  unfold AnnData.applyDdataItem at h
  by_cases h1 : kv.1 = "row" ∨ kv.1 = "smp"
  · rw [if_pos h1] at h
    cases hkv : kv.2 with
    | map pairs =>
        rw [hkv] at h
        rw [applyCols_meta h]
    | mat m => rw [hkv] at h; cases h
    | list l => rw [hkv] at h; cases h
    | val x => rw [hkv] at h; cases h
  · rw [if_neg h1] at h
    by_cases h2 : kv.1 = "col" ∨ kv.1 = "var"
    · rw [if_pos h2] at h
      cases hkv : kv.2 with
      | map pairs =>
          rw [hkv] at h
          rw [applyCols_meta h]
      | mat m => rw [hkv] at h; cases h
      | list l => rw [hkv] at h; cases h
      | val x => rw [hkv] at h; cases h
    · rw [if_neg h2] at h
      cases h
      exact lookupA_updateA_ne a.meta kv.2 hne

theorem applyDdata_meta_lookup {t : List (String × MVal)} :
    ∀ {a a' : AnnData} {k : String}, (∀ q ∈ t, q.1 ≠ k) →
      applyDdata a t = .ok a' → lookupA a'.meta k = lookupA a.meta k := by
  induction t with
  | nil =>
      intro a a' k _ h
      cases h
      rfl
  | cons p t ih =>
      intro a a' k hq h
      have h' : (match a.applyDdataItem p with
          | .ok a'' => applyDdata a'' t
          | .error e => .error e) = .ok a' := h
      split at h'
      next a'' hm =>
        rw [ih (fun q hqt => hq q (List.mem_cons_of_mem p hqt)) h',
          applyDdataItem_meta_lookup (hq p (List.mem_cons_self p t)) hm]
      next e hm => cases h'

theorem applyDdata_meta_mem {t : List (String × MVal)} :
    ∀ {a a' : AnnData} {k : String} {mv : MVal},
      (t.map Prod.fst).Nodup → (k, mv) ∈ t →
      ¬(k = "row" ∨ k = "smp") → ¬(k = "col" ∨ k = "var") →
      applyDdata a t = .ok a' → lookupA a'.meta k = some mv := by
  induction t with
  | nil =>
      intro a a' k mv _ hm
      cases hm
  | cons p t ih =>
      intro a a' k mv hn hm hr hc h
      obtain ⟨k0, v0⟩ := p
      have hn2 : (k0 :: t.map Prod.fst).Nodup := hn
      have h' : (match a.applyDdataItem (k0, v0) with
          | .ok a'' => applyDdata a'' t
          | .error e => .error e) = .ok a' := h
      split at h'
      next a'' hstep =>
        rcases List.mem_cons.1 hm with he | ht
        · have hk : k0 = k := congrArg Prod.fst he.symm
          have hv : v0 = mv := congrArg Prod.snd he.symm
          have hmeta : a''.meta = updateA a.meta k0 v0 :=
            applyDdataItem_meta_plain (by rw [hk]; exact hr)
              (by rw [hk]; exact hc) hstep
          have hrest : ∀ q ∈ t, q.1 ≠ k := fun q hq hqk =>
            (List.nodup_cons.1 hn2).1
              (List.mem_map.2 ⟨q, hq, hqk.trans hk.symm⟩)
          rw [applyDdata_meta_lookup hrest h', hmeta, hk, hv,
            lookupA_updateA_self]
        · exact ih (List.nodup_cons.1 hn2).2 ht hr hc h'
      next e hstep => cases h'

theorem init_tablesOK {dd : Option (List (String × MVal))} {X : Option Mat}
    {s v : RSource} {vis : Option Vis} {meta : List (String × MVal)}
    {a : AnnData} {rest : Option (List (String × MVal))}
    (h : AnnData.init dd X s v vis meta = .ok (a, rest)) : a.tablesOK := by
  cases dd with
  | none =>
      unfold AnnData.init at h
      dsimp only at h
      split at h
      next a0 hb =>
        have hpair := (Except.ok.injEq _ _).mp h
        have ha : a0 = a := congrArg Prod.fst hpair
        rw [← ha]
        cases X with
        | none => cases hb
        | some m => exact (build_tablesOK hb).1
      next e hb => cases h
  | some d =>
      unfold AnnData.init at h
      dsimp only at h
      split at h
      next e htr => cases h
      next xv s1 v1 d3 htr =>
        split at h
        next m =>
          split at h
          next e hb => cases h
          next a0 hb =>
            split at h
            next a1 hd =>
              have hpair := (Except.ok.injEq _ _).mp h
              have ha : a1 = a := congrArg Prod.fst hpair
              rw [← ha]
              exact (applyDdata_pres (build_tablesOK hb).1 hd).1
            next e hd => cases h
        next hne => cases h

/-! ### Legacy-bundle translation lemmas -/

theorem stripX_lookup_X (d : List (String × MVal)) (X0 : Option MVal) :
    lookupA (stripX d X0).2 "X" = Option.none := by
  unfold stripX
  cases h : lookupA d "X" with
  | some v => exact lookupA_eraseKey_self d "X"
  | none => exact h

theorem stripX_lookup_ne (d : List (String × MVal)) (X0 : Option MVal)
    {k : String} (hk : k ≠ "X") :
    lookupA (stripX d X0).2 k = lookupA d k := by
  unfold stripX
  cases h : lookupA d "X" with
  | some v => exact lookupA_eraseKey_ne d hk
  | none => rfl

theorem stripRow_spec {d : List (String × MVal)} {s0 s1 : RSource}
    {d2 : List (String × MVal)} (h : stripRow d s0 = .ok (s1, d2)) :
    lookupA d2 "row_names" = Option.none ∧
    (lookupA d "row_names" = Option.none →
      lookupA d2 "smp_names" = Option.none) ∧
    (lookupA d "row_names" ≠ Option.none →
      lookupA d2 "smp_names" = lookupA d "smp_names") ∧
    (∀ k, k ≠ "row_names" → k ≠ "smp_names" → lookupA d2 k = lookupA d k) := by
  unfold stripRow at h
  cases hr : lookupA d "row_names" with
  | some v =>
      cases v with
      | list l =>
          rw [hr] at h
          have hpair := (Except.ok.injEq _ _).mp h
          have hd2 : eraseKey "row_names" d = d2 := congrArg Prod.snd hpair
          rw [← hd2]
          refine ⟨lookupA_eraseKey_self d "row_names", ?_, ?_, ?_⟩
          · intro habs
            cases habs
          · intro _
            exact lookupA_eraseKey_ne d (by decide)
          · intro k hk1 _
            exact lookupA_eraseKey_ne d hk1
      | mat m => rw [hr] at h; cases h
      | map p => rw [hr] at h; cases h
      | val x => rw [hr] at h; cases h
  | none =>
      rw [hr] at h
      cases hs : lookupA d "smp_names" with
      | some v =>
          cases v with
          | list l =>
              rw [hs] at h
              have hpair := (Except.ok.injEq _ _).mp h
              have hd2 : eraseKey "smp_names" d = d2 := congrArg Prod.snd hpair
              rw [← hd2]
              refine ⟨lookupA_eraseKey_ne d (by decide) |>.trans hr, ?_, ?_, ?_⟩
              · intro _
                exact lookupA_eraseKey_self d "smp_names"
              · intro habs
                exact absurd rfl habs
              · intro k _ hk2
                exact lookupA_eraseKey_ne d hk2
          | mat m => rw [hs] at h; cases h
          | map p => rw [hs] at h; cases h
          | val x => rw [hs] at h; cases h
      | none =>
          rw [hs] at h
          have hpair := (Except.ok.injEq _ _).mp h
          have hd2 : d = d2 := congrArg Prod.snd hpair
          rw [← hd2]
          exact ⟨hr, fun _ => hs, fun habs => absurd rfl habs, fun k _ _ => rfl⟩

theorem stripCol_spec {d : List (String × MVal)} {v0 v1 : RSource}
    {d2 : List (String × MVal)} (h : stripCol d v0 = .ok (v1, d2)) :
    lookupA d2 "col_names" = Option.none ∧
    (lookupA d "col_names" = Option.none →
      lookupA d2 "var_names" = Option.none) ∧
    (lookupA d "col_names" ≠ Option.none →
      lookupA d2 "var_names" = lookupA d "var_names") ∧
    (∀ k, k ≠ "col_names" → k ≠ "var_names" → lookupA d2 k = lookupA d k) := by
  unfold stripCol at h
  cases hr : lookupA d "col_names" with
  | some v =>
      cases v with
      | list l =>
          rw [hr] at h
          have hpair := (Except.ok.injEq _ _).mp h
          have hd2 : eraseKey "col_names" d = d2 := congrArg Prod.snd hpair
          rw [← hd2]
          refine ⟨lookupA_eraseKey_self d "col_names", ?_, ?_, ?_⟩
          · intro habs
            cases habs
          · intro _
            exact lookupA_eraseKey_ne d (by decide)
          · intro k hk1 _
            exact lookupA_eraseKey_ne d hk1
      | mat m => rw [hr] at h; cases h
      | map p => rw [hr] at h; cases h
      | val x => rw [hr] at h; cases h
  | none =>
      rw [hr] at h
      cases hs : lookupA d "var_names" with
      | some v =>
          cases v with
          | list l =>
              rw [hs] at h
              have hpair := (Except.ok.injEq _ _).mp h
              have hd2 : eraseKey "var_names" d = d2 := congrArg Prod.snd hpair
              rw [← hd2]
              refine ⟨lookupA_eraseKey_ne d (by decide) |>.trans hr, ?_, ?_, ?_⟩
              · intro _
                exact lookupA_eraseKey_self d "var_names"
              · intro habs
                exact absurd rfl habs
              · intro k _ hk2
                exact lookupA_eraseKey_ne d hk2
          | mat m => rw [hs] at h; cases h
          | map p => rw [hs] at h; cases h
          | val x => rw [hs] at h; cases h
      | none =>
          rw [hs] at h
          have hpair := (Except.ok.injEq _ _).mp h
          have hd2 : d = d2 := congrArg Prod.snd hpair
          rw [← hd2]
          exact ⟨hr, fun _ => hs, fun habs => absurd rfl habs, fun k _ _ => rfl⟩

theorem stripX_keys_nodup {d : List (String × MVal)} (X0 : Option MVal)
    (hn : (d.map Prod.fst).Nodup) :
    (((stripX d X0).2).map Prod.fst).Nodup := by
  unfold stripX
  cases h : lookupA d "X" with
  | some v => exact keys_nodup_eraseKey "X" hn
  | none => exact hn

theorem stripRow_keys_nodup {d : List (String × MVal)} {s0 s1 : RSource}
    {d2 : List (String × MVal)} (h : stripRow d s0 = .ok (s1, d2))
    (hn : (d.map Prod.fst).Nodup) : (d2.map Prod.fst).Nodup := by
  unfold stripRow at h
  cases hr : lookupA d "row_names" with
  | some v =>
      cases v with
      | list l =>
          rw [hr] at h
          have hd2 : eraseKey "row_names" d = d2 :=
            congrArg Prod.snd ((Except.ok.injEq _ _).mp h)
          rw [← hd2]
          exact keys_nodup_eraseKey _ hn
      | mat m => rw [hr] at h; cases h
      | map p => rw [hr] at h; cases h
      | val x => rw [hr] at h; cases h
  | none =>
      rw [hr] at h
      cases hs : lookupA d "smp_names" with
      | some v =>
          cases v with
          | list l =>
              rw [hs] at h
              have hd2 : eraseKey "smp_names" d = d2 :=
                congrArg Prod.snd ((Except.ok.injEq _ _).mp h)
              rw [← hd2]
              exact keys_nodup_eraseKey _ hn
          | mat m => rw [hs] at h; cases h
          | map p => rw [hs] at h; cases h
          | val x => rw [hs] at h; cases h
      | none =>
          rw [hs] at h
          have hd2 : d = d2 := congrArg Prod.snd ((Except.ok.injEq _ _).mp h)
          rw [← hd2]
          exact hn

theorem stripCol_keys_nodup {d : List (String × MVal)} {v0 v1 : RSource}
    {d2 : List (String × MVal)} (h : stripCol d v0 = .ok (v1, d2))
    (hn : (d.map Prod.fst).Nodup) : (d2.map Prod.fst).Nodup := by
  unfold stripCol at h
  cases hr : lookupA d "col_names" with
  | some v =>
      cases v with
      | list l =>
          rw [hr] at h
          have hd2 : eraseKey "col_names" d = d2 :=
            congrArg Prod.snd ((Except.ok.injEq _ _).mp h)
          rw [← hd2]
          exact keys_nodup_eraseKey _ hn
      | mat m => rw [hr] at h; cases h
      | map p => rw [hr] at h; cases h
      | val x => rw [hr] at h; cases h
  | none =>
      rw [hr] at h
      cases hs : lookupA d "var_names" with
      | some v =>
          cases v with
          | list l =>
              rw [hs] at h
              have hd2 : eraseKey "var_names" d = d2 :=
                congrArg Prod.snd ((Except.ok.injEq _ _).mp h)
              rw [← hd2]
              exact keys_nodup_eraseKey _ hn
          | mat m => rw [hs] at h; cases h
          | map p => rw [hs] at h; cases h
          | val x => rw [hs] at h; cases h
      | none =>
          rw [hs] at h
          have hd2 : d = d2 := congrArg Prod.snd ((Except.ok.injEq _ _).mp h)
          rw [← hd2]
          exact hn

theorem translate_spec {d : List (String × MVal)} {X0 : Option MVal}
    {s0 v0 : RSource} {xv : Option MVal} {s1 v1 : RSource}
    {d3 : List (String × MVal)}
    (h : translateDdata d X0 s0 v0 = .ok (xv, s1, v1, d3)) :
    lookupA d3 "X" = Option.none ∧
    lookupA d3 "row_names" = Option.none ∧
    lookupA d3 "col_names" = Option.none ∧
    (lookupA d "row_names" = Option.none →
      lookupA d3 "smp_names" = Option.none) ∧
    (lookupA d "col_names" = Option.none →
      lookupA d3 "var_names" = Option.none) ∧
    (lookupA d "row_names" ≠ Option.none →
      lookupA d3 "smp_names" = lookupA d "smp_names") ∧
    (lookupA d "col_names" ≠ Option.none →
      lookupA d3 "var_names" = lookupA d "var_names") := by
  unfold translateDdata at h
  have hd1X : lookupA (stripX d X0).2 "X" = Option.none := stripX_lookup_X d X0
  have hd1ne : ∀ {k : String}, k ≠ "X" →
      lookupA (stripX d X0).2 k = lookupA d k := fun hk => stripX_lookup_ne d X0 hk
  split at h
  next e hsr => cases h
  next s1' d2 hsr =>
    split at h
    next e hsc => cases h
    next v1' d3' hsc =>
      have hpair := (Except.ok.injEq _ _).mp h
      have hd3 : d3' = d3 := congrArg (fun q => q.2.2.2) hpair
      rw [← hd3]
      obtain ⟨hr1, hr2, hr3, hr4⟩ := stripRow_spec hsr
      obtain ⟨hc1, hc2, hc3, hc4⟩ := stripCol_spec hsc
      refine ⟨?_, ?_, hc1, ?_, ?_, ?_, ?_⟩
      · rw [hc4 "X" (by decide) (by decide), hr4 "X" (by decide) (by decide)]
        exact hd1X
      · rw [hc4 "row_names" (by decide) (by decide)]
        exact hr1
      · intro hd
        rw [hc4 "smp_names" (by decide) (by decide)]
        exact hr2 (by rw [hd1ne (by decide)]; exact hd)
      · intro hd
        exact hc2 (by
          rw [hr4 "col_names" (by decide) (by decide), hd1ne (by decide)]
          exact hd)
      · intro hd
        rw [hc4 "smp_names" (by decide) (by decide),
          hr3 (by rw [hd1ne (by decide)]; exact hd), hd1ne (by decide)]
      · intro hd
        have hcol2 : lookupA d2 "col_names" = lookupA d "col_names" := by
          rw [hr4 "col_names" (by decide) (by decide), hd1ne (by decide)]
        rw [hc3 (by rw [hcol2]; exact hd),
          hr4 "var_names" (by decide) (by decide), hd1ne (by decide)]

theorem translate_keys_nodup {d : List (String × MVal)} {X0 : Option MVal}
    {s0 v0 : RSource} {xv : Option MVal} {s1 v1 : RSource}
    {d3 : List (String × MVal)}
    (h : translateDdata d X0 s0 v0 = .ok (xv, s1, v1, d3))
    (hn : (d.map Prod.fst).Nodup) : (d3.map Prod.fst).Nodup := by
  unfold translateDdata at h
  split at h
  next e hsr => cases h
  next s1' d2 hsr =>
    split at h
    next e hsc => cases h
    next v1' d3' hsc =>
      have hd3 : d3' = d3 :=
        congrArg (fun q => q.2.2.2) ((Except.ok.injEq _ _).mp h)
      rw [← hd3]
      exact stripCol_keys_nodup hsc
        (stripRow_keys_nodup hsr (stripX_keys_nodup X0 hn))

/-! ### Transpose lemmas -/

theorem toSmpName_eq_var : toSmpName VAR_NAMES = SMP_NAMES := by
  unfold toSmpName
  rw [if_pos rfl]

theorem toSmpName_ne {n : String} (h : n ≠ VAR_NAMES) : toSmpName n = n := by
  unfold toSmpName
  rw [if_neg h]

theorem toVarName_eq_smp : toVarName SMP_NAMES = VAR_NAMES := by
  unfold toVarName
  rw [if_pos rfl]

theorem toVarName_ne {n : String} (h : n ≠ SMP_NAMES) : toVarName n = n := by
  unfold toVarName
  rw [if_neg h]

theorem toSmp_mem {l : List String} (h : VAR_NAMES ∈ l) :
    SMP_NAMES ∈ l.map toSmpName :=
  List.mem_map.2 ⟨VAR_NAMES, h, toSmpName_eq_var⟩

theorem toVar_mem {l : List String} (h : SMP_NAMES ∈ l) :
    VAR_NAMES ∈ l.map toVarName :=
  List.mem_map.2 ⟨SMP_NAMES, h, toVarName_eq_smp⟩

theorem toSmp_not_var (l : List String) : VAR_NAMES ∉ l.map toSmpName := by
  intro hmem
  rcases List.mem_map.1 hmem with ⟨n, _, hn⟩
  by_cases hv : n = VAR_NAMES
  · rw [hv, toSmpName_eq_var] at hn
    exact absurd hn (by decide)
  · rw [toSmpName_ne hv] at hn
    exact hv hn

theorem toVar_not_smp (l : List String) : SMP_NAMES ∉ l.map toVarName := by
  intro hmem
  rcases List.mem_map.1 hmem with ⟨n, _, hn⟩
  by_cases hv : n = SMP_NAMES
  · rw [hv, toVarName_eq_smp] at hn
    exact absurd hn (by decide)
  · rw [toVarName_ne hv] at hn
    exact hv hn

theorem toSmp_nodup {l : List String} (hs : SMP_NAMES ∉ l) (h : l.Nodup) :
    (l.map toSmpName).Nodup := by
  refine h.map_on ?_
  intro x hx y hy hxy
  by_cases hxv : x = VAR_NAMES <;> by_cases hyv : y = VAR_NAMES
  · rw [hxv, hyv]
  · rw [hxv, toSmpName_eq_var, toSmpName_ne hyv] at hxy
    exact absurd (hxy.symm ▸ hy) hs
  · rw [hyv, toSmpName_eq_var, toSmpName_ne hxv] at hxy
    exact absurd (hxy ▸ hx) hs
  · rw [toSmpName_ne hxv, toSmpName_ne hyv] at hxy
    exact hxy

theorem toVar_nodup {l : List String} (hs : VAR_NAMES ∉ l) (h : l.Nodup) :
    (l.map toVarName).Nodup := by
  refine h.map_on ?_
  intro x hx y hy hxy
  by_cases hxv : x = SMP_NAMES <;> by_cases hyv : y = SMP_NAMES
  · rw [hxv, hyv]
  · rw [hxv, toVarName_eq_smp, toVarName_ne hyv] at hxy
    exact absurd (hxy.symm ▸ hy) hs
  · rw [hyv, toVarName_eq_smp, toVarName_ne hxv] at hxy
    exact absurd (hxy ▸ hx) hs
  · rw [toVarName_ne hxv, toVarName_ne hyv] at hxy
    exact hxy

theorem toSmp_toVar {n : String} (hn : n ≠ VAR_NAMES) :
    toSmpName (toVarName n) = n := by
  unfold toVarName
  by_cases hs : n = SMP_NAMES
  · rw [if_pos hs, toSmpName_eq_var, hs]
  · rw [if_neg hs]
    exact toSmpName_ne hn

theorem toVar_toSmp {n : String} (hn : n ≠ SMP_NAMES) :
    toVarName (toSmpName n) = n := by
  unfold toSmpName
  by_cases hs : n = VAR_NAMES
  · rw [if_pos hs, toVarName_eq_smp, hs]
  · rw [if_neg hs]
    exact toVarName_ne hn

theorem map_toSmp_toVar {l : List String} (hv : VAR_NAMES ∉ l) :
    (l.map toVarName).map toSmpName = l := by
  induction l with
  | nil => rfl
  | cons x t ih =>
      have hx : x ≠ VAR_NAMES :=
        fun hh => hv (by rw [← hh]; exact List.mem_cons_self x t)
      have ht : VAR_NAMES ∉ t := fun hh => hv (List.mem_cons_of_mem x hh)
      simp only [List.map_cons]
      rw [toSmp_toVar hx, ih ht]

theorem map_toVar_toSmp {l : List String} (hv : SMP_NAMES ∉ l) :
    (l.map toSmpName).map toVarName = l := by
  induction l with
  | nil => rfl
  | cons x t ih =>
      have hx : x ≠ SMP_NAMES :=
        fun hh => hv (by rw [← hh]; exact List.mem_cons_self x t)
      have ht : SMP_NAMES ∉ t := fun hh => hv (List.mem_cons_of_mem x hh)
      simp only [List.map_cons]
      rw [toVar_toSmp hx, ih ht]

theorem build_recarr_eq {X : Mat} {ns1 ns2 : List String}
    {cs1 cs2 : List (List Val)} {vis : Option Vis} {meta : List (String × MVal)}
    (h1 : ns1.length = cs1.length) (h2 : ns1.Nodup) (h3 : uniformLen cs1)
    (h4 : ns2.length = cs2.length) (h5 : ns2.Nodup) (h6 : uniformLen cs2)
    (hl1 : (cs1.headD []).length = X.nrSmp)
    (hl2 : (cs2.headD []).length = X.nrVar) :
    AnnData.build X (.recarr ns1 cs1) (.recarr ns2 cs2) vis meta =
      .ok ⟨X, ⟨ns1, cs1, SMP_NAMES, true⟩, ⟨ns2, cs2, VAR_NAMES, true⟩,
        vis.getD [], meta⟩ := by
  unfold AnnData.build
  rw [mkBound_recarr_ok h1 h2 h3]
  dsimp only
  rw [mkBound_recarr_ok h4 h5 h6]
  dsimp only [RecArr.len]
  rw [if_neg (not_ne_iff.2 hl1), if_neg (not_ne_iff.2 hl2)]

theorem transpose_spec {a : AnnData} (h : a.WF) :
    a.transpose = .ok
      ⟨a.X.transposeMat,
       ⟨a.var.names.map toSmpName, a.var.cols, SMP_NAMES, true⟩,
       ⟨a.smp.names.map toVarName, a.smp.cols, VAR_NAMES, true⟩,
       a.vis, a.meta⟩ := by
  obtain ⟨hsw, hvw, hsl, hvl, hsm, hsnv, hvm, hvns, hsnc, hvnc, hsb, hvb⟩ := h
  exact build_recarr_eq
    (by rw [List.length_map]; exact hvw.1) (toSmp_nodup hvns hvw.2.2) hvw.2.1
    (by rw [List.length_map]; exact hsw.1) (toVar_nodup hsnv hsw.2.2) hsw.2.1
    hvl hsl

theorem transpose_WF {a : AnnData} (h : a.WF) :
    (⟨a.X.transposeMat,
      ⟨a.var.names.map toSmpName, a.var.cols, SMP_NAMES, true⟩,
      ⟨a.smp.names.map toVarName, a.smp.cols, VAR_NAMES, true⟩,
      a.vis, a.meta⟩ : AnnData).WF := by
  obtain ⟨hsw, hvw, hsl, hvl, hsm, hsnv, hvm, hvns, hsnc, hvnc, hsb, hvb⟩ := h
  exact ⟨⟨by rw [List.length_map]; exact hvw.1, hvw.2.1, toSmp_nodup hvns hvw.2.2⟩,
    ⟨by rw [List.length_map]; exact hsw.1, hsw.2.1, toVar_nodup hsnv hsw.2.2⟩,
    hvl, hsl, toSmp_mem hvm, toSmp_not_var _, toVar_mem hsm, toVar_not_smp _,
    rfl, rfl, rfl, rfl⟩

/-! ### Claim theorems -/

/-- C2: over the container built from the 2x3 matrix `[[1,2,3],[4,5,6]]`,
indexing returns the five expected sub-matrices, each sub-container's
table lengths equal its matrix shape, and a single-integer component is
normalized to a length-1 slice. -/
theorem slicing_composition :
    (mat23.getItem (.pair (.int 0) (.int 0))).map obs = .ok ([[1]], 1, 1) ∧
    (mat23.getItem (.pair (.int 0) .all)).map obs = .ok ([[1, 2, 3]], 1, 3) ∧
    (mat23.getItem (.pair .all (.int 0))).map obs = .ok ([[1], [4]], 2, 1) ∧
    (mat23.getItem (.pair .all (.list [0, 1]))).map obs = .ok ([[1, 2], [4, 5]], 2, 2) ∧
    (mat23.getItem (.pair .all (.slice 1 3))).map obs = .ok ([[2, 3], [5, 6]], 2, 2) ∧
    (NIndex.pair (.int 0) (.int 0)).unpack = (Sel.slice 0 1, Sel.slice 0 1) := by
  refine ⟨rfl, rfl, rfl, rfl, rfl, rfl⟩

/-- C8 evaluation: `del container[index]` raises for every container and
every positional index, because `del self.X[smp, var]` is rejected by
every supported matrix backend before any metadata is touched. -/
theorem delitem_always_raises :
    ∀ (a : AnnData) (ni : NIndex), a.delItem ni = .error .cannotDeleteArray := by
  intro a ni
  rfl

/-- C9: a positional indexed write touches only the addressed matrix
sub-region; tables, visualization mapping, dataset metadata, the matrix
shape and every entry outside the region are unchanged. -/
theorem setitem_frame_thm :
    ∀ (a : AnnData) (ni : NIndex) (v : Int),
      (a.setItem (.nix ni) v).smp = a.smp ∧
      (a.setItem (.nix ni) v).var = a.var ∧
      (a.setItem (.nix ni) v).vis = a.vis ∧
      (a.setItem (.nix ni) v).meta = a.meta ∧
      (a.setItem (.nix ni) v).X.nrSmp = a.X.nrSmp ∧
      (a.setItem (.nix ni) v).X.nrVar = a.X.nrVar ∧
      ∀ i j,
        ¬(i ∈ ni.unpack.1.positions a.X.nrSmp ∧ j ∈ ni.unpack.2.positions a.X.nrVar) →
        (a.setItem (.nix ni) v).X.entry i j = a.X.entry i j := by
  intro a ni v
  refine ⟨rfl, rfl, rfl, rfl, rfl, rfl, ?_⟩
  intro i j h
  simp only [AnnData.setItem, Mat.writeRegion]
  exact if_neg h

/-- C9 witness: the frame theorem applied to the concrete container
`mat23`, the index `[0, 0]` and the outside position `(1, 2)`. -/
theorem setitem_frame_witness :
    (mat23.setItem (.nix (.pair (.int 0) (.int 0))) 9).meta = mat23.meta ∧
    (mat23.setItem (.nix (.pair (.int 0) (.int 0))) 9).X.entry 1 2 = mat23.X.entry 1 2 :=
  ⟨(setitem_frame_thm mat23 (.pair (.int 0) (.int 0)) 9).2.2.2.1,
   (setitem_frame_thm mat23 (.pair (.int 0) (.int 0)) 9).2.2.2.2.2.2 1 2 (by decide)⟩

/-- C6 evaluation (code bug): assigning `dict(a=[1,2,3,4])` to the `var`
attribute of the 2x3 container fails as the claim says, but the error
payload carries `len(value_orig) = 1` (the dict's key count) and
`len(self) = 2` (the row count), not the wrapped table's length 4 and the
expected column count 3 that the message text announces. -/
theorem setattr_message_bug :
    mat23.setAxis .var (.raw (.map [("a", [.int 1, .int 2, .int 3, .int 4])]))
      = .error (.convertedLength "var" 1 2) ∧ (1 : Nat) ≠ 4 ∧ (2 : Nat) ≠ 3 :=
  ⟨rfl, by decide, by decide⟩

/-- C1 counterexample: assigning a table that already is a `BoundRecArr`
(here a detached 3-row table) to the `smp` attribute of the 2x3 container
succeeds — `__setattr__` validates nothing in that case — and leaves a
container whose row-table length 3 differs from its matrix row count
2. -/
theorem dim_invariant_cex :
    (mat23.setAxis .smp (.bound r3)).map (fun m => (m.smp.len, m.X.nrSmp))
      = .ok (3, 2) ∧ (3 : Nat) ≠ 2 :=
  ⟨rfl, by decide⟩

/-- C10 counterexample: constructing from a bundle holding both
`'row_names'` and `'smp_names'` succeeds but leaves `'smp_names'` in the
caller's mapping — the `elif` of lines 160-164 never runs once
`'row_names'` is found — so the mapping still contains one of the keys
the claim says are always removed. -/
theorem ddata_mutation_cex :
    (AnnData.init (some dd0) Option.none .none .none Option.none []).map
      (fun p => (p.2.getD []).map Prod.fst) = .ok ["smp_names"] := by
  rfl

/-- C1 as amended: the shape invariant holds after every successful
construction and after every successful axis assignment of a value that
is not already a bound table (the wrapped-and-validated path of
`__setattr__`); assignment of an existing `BoundRecArr` is stored
without validation (see the counterexample). -/
theorem dim_invariant_amended :
    (∀ (dd : Option (List (String × MVal))) (X : Option Mat) (s v : RSource)
        (vis : Option Vis) (meta : List (String × MVal)) (a : AnnData)
        (rest : Option (List (String × MVal))),
        AnnData.init dd X s v vis meta = .ok (a, rest) → a.dimOK) ∧
    (∀ (a : AnnData) (ax : Axis) (s : RSource) (a' : AnnData),
        a.dimOK → a.setAxis ax (.raw s) = .ok a' → a'.dimOK) := by
  constructor
  · intro dd X s v vis meta a rest h
    have ht := init_tablesOK h
    exact ⟨ht.2.2.1, ht.2.2.2.1⟩
  · intro a ax s a' ha h
    exact setAxis_raw_dimOK ha h

/-- C1 witness: the amended invariant evaluated on the container built
over the 2x3 matrix. -/
theorem dim_invariant_witness : AnnData.dimOK mat23 :=
  dim_invariant_amended.1 Option.none (some M23) .none .none Option.none [] mat23
    Option.none rfl

/-- C4 counterexample: a container with zero rows is constructible
(`AnnData(np.zeros((0, 3)))` passes every check) and its tables carry a
non-null owning parent, yet — because `AnnData.__len__` (line 311) makes
a 0-row parent falsy — the guard of line 70 sends even a fresh-key write
to the in-place branch, which raises numpy's no-such-field error.  So a
write of length 0 (at most the row count 0) does not succeed by
appending, and a too-long write of length 1 raises the no-field error
rather than the length-mismatch error naming both lengths: both halves
of the claim as stated fail on this bound table. -/
theorem column_append_cex :
    ann03.setAxisItem .smp "new_col" [] = .error (.fieldNotFound "new_col") ∧
    ann03.setAxisItem .smp "new_col" [.int 1]
      = .error (.fieldNotFound "new_col") ∧
    ann03.smp.bound = true ∧ List.length ([] : List Val) ≤ ann03.smp.len :=
  ⟨rfl, rfl, rfl, by decide⟩

/-- C4 as amended: on a table whose owning container is live in the
sense line 70 actually tests — a non-null parent (`bound = true`) whose
container has a nonzero row count, `if self._parent` going through
`AnnData.__len__` — writing a fresh column that is too long fails with
the error naming both lengths (and, the operation being modelled as
state passing, leaves everything unchanged); writing a fresh column of
length at most the row count builds the appended (and, when shorter,
fill-padded) table and reattaches it through the container's axis
setter. -/
theorem column_append_thm :
    ∀ (a : AnnData) (ax : Axis) (k : String) (v : List Val),
      (a.axisArr ax).bound = true →
      a.X.nrSmp ≠ 0 →
      k ∉ (a.axisArr ax).names →
      (a.axisArr ax).WFr →
      (a.axisArr ax).nameCol = axisNameCol ax →
      (v.length > (a.axisArr ax).len →
        a.setAxisItem ax k v = .error (.tooMany v.length (a.axisArr ax).len)) ∧
      (v.length ≤ (a.axisArr ax).len →
        a.setAxisItem ax k v =
          a.setAxis ax (.bound
            ⟨(a.axisArr ax).names ++ [k],
             (a.axisArr ax).cols ++
               [v.take (a.axisArr ax).len ++
                List.replicate ((a.axisArr ax).len - v.length) (Val.int (-1))],
             (a.axisArr ax).nameCol, true⟩) ∧
        a.setAxisItem ax k v =
          .ok (a.putAxis ax
            ⟨(a.axisArr ax).names ++ [k],
             (a.axisArr ax).cols ++
               [v.take (a.axisArr ax).len ++
                List.replicate ((a.axisArr ax).len - v.length) (Val.int (-1))],
             (a.axisArr ax).nameCol, true⟩)) := by
  intro a ax k v hb hnz hk hw hnc
  constructor
  · intro hlong
    unfold AnnData.setAxisItem
    rw [if_pos ⟨hb, hnz, hk⟩, if_pos hlong]
  · intro hle
    have hpad : (v.take (a.axisArr ax).len ++
        List.replicate ((a.axisArr ax).len - v.length) (Val.int (-1))).length
        = (a.axisArr ax).len := pad_length hle
    have hnd : ((a.axisArr ax).names ++ [k]).Nodup := by
      rw [List.nodup_append]
      exact ⟨hw.2.2, List.nodup_singleton k,
        fun x hx hxk => hk (by simp at hxk; rw [← hxk]; exact hx)⟩
    have hlens : ((a.axisArr ax).names ++ [k]).length =
        ((a.axisArr ax).cols ++
          [v.take (a.axisArr ax).len ++
           List.replicate ((a.axisArr ax).len - v.length) (Val.int (-1))]).length := by
      simp [hw.1]
    have hun : uniformLen ((a.axisArr ax).cols ++
        [v.take (a.axisArr ax).len ++
         List.replicate ((a.axisArr ax).len - v.length) (Val.int (-1))]) :=
      uniform_append_pad hw.2.1 hpad
    have hax : (if (a.axisArr ax).nameCol = SMP_NAMES then Axis.smp else Axis.var)
        = ax := by
      cases ax
      · rw [hnc]
        exact if_pos rfl
      · rw [hnc]
        exact if_neg (by decide)
    unfold AnnData.setAxisItem
    rw [if_pos ⟨hb, hnz, hk⟩, if_neg (not_lt.2 hle)]
    dsimp only
    rw [mkBound_recarr_ok hlens hnd hun]
    dsimp only
    rw [hax, hnc]
    exact ⟨rfl, rfl⟩

/-- C4 witness: on the 2x3 container, `mat.smp['too_long'] = [1,2,3]`
fails naming the lengths 3 and 2, and `mat.smp['new_col'] = [7,8]`
reattaches the appended table. -/
theorem column_append_witness :
    mat23.setAxisItem .smp "too_long" [.int 1, .int 2, .int 3]
      = .error (.tooMany 3 2) ∧
    mat23.setAxisItem .smp "new_col" [.int 7, .int 8] =
      .ok (mat23.putAxis .smp
        ⟨mat23.smp.names ++ ["new_col"],
         mat23.smp.cols ++
           [[Val.int 7, Val.int 8].take mat23.smp.len ++
            List.replicate (mat23.smp.len - 2) (Val.int (-1))],
         mat23.smp.nameCol, true⟩) :=
  ⟨(column_append_thm mat23 .smp "too_long" [.int 1, .int 2, .int 3]
      (by decide) (by decide) (by decide) (by decide) (by decide)).1 (by decide),
   ((column_append_thm mat23 .smp "new_col" [.int 7, .int 8]
      (by decide) (by decide) (by decide) (by decide) (by decide)).2
      (by decide)).2⟩

/-- C5: assigning a raw mapping to an axis attribute wraps it; when the
wrapped table's label column equals the default 0-based sequence, the
stored table keeps the mapping's annotation columns but has the previous
labels written back over the label column; when the label column differs
from the default, the wrapped table is stored outright. -/
theorem label_preservation_thm :
    ∀ (a : AnnData) (ax : Axis) (pairs : List (String × List Val)) (w : RecArr)
      (namesOrig : List Val),
      (a.axisArr ax).col (axisNameCol ax) = some namesOrig →
      mkBoundRecArr (.map pairs) (axisNameCol ax) true Option.none = .ok w →
      w.len = a.axisSize ax →
      namesOrig.length = w.len →
      (w.col (axisNameCol ax) = some (defaultLabels (a.axisSize ax)) →
        a.setAxis ax (.raw (.map pairs)) =
          .ok (a.putAxis ax (w.setCol (axisNameCol ax) namesOrig))) ∧
      (∀ lc, w.col (axisNameCol ax) = some lc →
        lc ≠ defaultLabels (a.axisSize ax) →
        a.setAxis ax (.raw (.map pairs)) = .ok (a.putAxis ax w)) := by
  intro a ax pairs w namesOrig hno hw hlen horig
  constructor
  · intro hlc
    rw [setAxis_raw_eq hno hw hlen hlc horig, if_pos rfl]
  · intro lc hlc hne
    rw [setAxis_raw_eq hno hw hlen hlc horig, if_neg hne]

/-- C5 witness: on the container with labels `['A','B']`, assigning the
plain mapping `dict(a=[10,20])` to the `smp` attribute yields the wrapped
table with the old labels written back over its default label column. -/
theorem label_preservation_witness :
    annAB.setAxis .smp (.raw (.map [("a", [.int 10, .int 20])])) =
      .ok (annAB.putAxis .smp (wAB.setCol SMP_NAMES [.str "A", .str "B"])) :=
  (label_preservation_thm annAB .smp [("a", [.int 10, .int 20])] wAB
    [.str "A", .str "B"] (by decide) (by rfl) (by decide) (by decide)).1
    (by decide)

/-- C10 as amended: successful construction from a legacy bundle (whose
keys, being a Python dict's, are distinct) deletes from the caller's
mapping the `'X'` key and exactly the alias it consults for each label
key: `'row_names'` when present, else `'smp_names'`; symmetrically
`'col_names'`, else `'var_names'`.  An unconsulted alias survives in the
caller's mapping with its original value (`'smp_names'` next to
`'row_names'`, `'var_names'` next to `'col_names'`) and is routed into
the container's dataset metadata. -/
theorem ddata_mutation_amended :
    ∀ (d : List (String × MVal)) (X : Option Mat) (s v : RSource)
      (vis : Option Vis) (meta : List (String × MVal)) (a : AnnData)
      (rest : Option (List (String × MVal))),
      (d.map Prod.fst).Nodup →
      AnnData.init (some d) X s v vis meta = .ok (a, rest) →
      ∃ d3, rest = some d3 ∧
        lookupA d3 "X" = Option.none ∧
        lookupA d3 "row_names" = Option.none ∧
        lookupA d3 "col_names" = Option.none ∧
        (lookupA d "row_names" = Option.none →
          lookupA d3 "smp_names" = Option.none) ∧
        (lookupA d "col_names" = Option.none →
          lookupA d3 "var_names" = Option.none) ∧
        (lookupA d "row_names" ≠ Option.none →
          lookupA d3 "smp_names" = lookupA d "smp_names") ∧
        (lookupA d "col_names" ≠ Option.none →
          lookupA d3 "var_names" = lookupA d "var_names") ∧
        (∀ mv, lookupA d "row_names" ≠ Option.none →
          lookupA d "smp_names" = some mv →
          lookupA a.meta "smp_names" = some mv) ∧
        (∀ mv, lookupA d "col_names" ≠ Option.none →
          lookupA d "var_names" = some mv →
          lookupA a.meta "var_names" = some mv) := by
  intro d X s v vis meta a rest hnod h
  unfold AnnData.init at h
  dsimp only at h
  split at h
  next e htr => cases h
  next xv s1 v1 d3 htr =>
    split at h
    next m =>
      split at h
      next e hb => cases h
      next a0 hb =>
        split at h
        next a1 hd =>
          have hpair := (Except.ok.injEq _ _).mp h
          have hrest : some d3 = rest := congrArg Prod.snd hpair
          have ha1 : a1 = a := congrArg Prod.fst hpair
          obtain ⟨t1, t2, t3, t4, t5, t6, t7⟩ := translate_spec htr
          have hnod3 := translate_keys_nodup htr hnod
          refine ⟨d3, hrest.symm, t1, t2, t3, t4, t5, t6, t7, ?_, ?_⟩
          · intro mv hrow hsmp
            have hmem : ("smp_names", mv) ∈ d3 :=
              lookupA_mem (by rw [t6 hrow, hsmp])
            rw [← ha1]
            exact applyDdata_meta_mem hnod3 hmem (by decide) (by decide) hd
          · intro mv hcol hvar
            have hmem : ("var_names", mv) ∈ d3 :=
              lookupA_mem (by rw [t7 hcol, hvar])
            rw [← ha1]
            exact applyDdata_meta_mem hnod3 hmem (by decide) (by decide) hd
        next e hd => cases h
    next hne => cases h

/-- C10 witness: the amended statement applied to the bundle `dd0`,
which carries `'X'` and both row-label aliases: `'row_names'` is
consulted and deleted, the co-present `'smp_names'` survives in the
mapping and its value lands in the container's dataset metadata. -/
theorem ddata_mutation_witness :
    ∃ d3, (some [("smp_names", MVal.list [.int 7, .int 8])] :
        Option (List (String × MVal))) = some d3 ∧
      lookupA d3 "X" = Option.none ∧
      lookupA d3 "row_names" = Option.none ∧
      lookupA d3 "col_names" = Option.none ∧
      (lookupA dd0 "row_names" = Option.none →
        lookupA d3 "smp_names" = Option.none) ∧
      (lookupA dd0 "col_names" = Option.none →
        lookupA d3 "var_names" = Option.none) ∧
      (lookupA dd0 "row_names" ≠ Option.none →
        lookupA d3 "smp_names" = lookupA dd0 "smp_names") ∧
      (lookupA dd0 "col_names" ≠ Option.none →
        lookupA d3 "var_names" = lookupA dd0 "var_names") ∧
      (∀ mv, lookupA dd0 "row_names" ≠ Option.none →
        lookupA dd0 "smp_names" = some mv →
        lookupA annD0.meta "smp_names" = some mv) ∧
      (∀ mv, lookupA dd0 "col_names" ≠ Option.none →
        lookupA dd0 "var_names" = some mv →
        lookupA annD0.meta "var_names" = some mv) :=
  ddata_mutation_amended dd0 Option.none .none .none Option.none [] annD0
    (some [("smp_names", MVal.list [.int 7, .int 8])]) (by decide) rfl

/-- C7 as amended: `to_dict` returns the matrix under `'X'`, the label
sequences under `'smp_names'` / `'var_names'`, sub-mappings holding
exactly those annotation columns that come after the first field and are
not the label column, and every dataset-metadata entry at top level
(stated here for metadata whose keys do not collide with the five base
keys, which metadata writes would override). -/
theorem to_dict_amended :
    ∀ (a : AnnData) (sn vn : List Val),
      a.smp.col SMP_NAMES = some sn →
      a.var.col VAR_NAMES = some vn →
      (∀ p ∈ a.meta, p.1 ≠ "X" ∧ p.1 ≠ "smp" ∧ p.1 ≠ "var" ∧
        p.1 ≠ "smp_names" ∧ p.1 ≠ "var_names") →
      (a.meta.map Prod.fst).Nodup →
      ∃ dct, a.toDict = .ok dct ∧
        lookupA dct "X" = some (.mat a.X) ∧
        lookupA dct "smp_names" = some (.list sn) ∧
        lookupA dct "var_names" = some (.list vn) ∧
        lookupA dct "smp" = some (.map
          ((a.smp_keys.filter (fun k => k ≠ SMP_NAMES)).map
            (fun k => (k, (a.smp.col k).getD [])))) ∧
        lookupA dct "var" = some (.map
          ((a.var_keys.filter (fun k => k ≠ VAR_NAMES)).map
            (fun k => (k, (a.var.col k).getD [])))) ∧
        (∀ k mv, (k, mv) ∈ a.meta → lookupA dct k = some mv) := by
  intro a sn vn hsn hvn hdisj hnod
  have hdct : a.toDict = .ok (applyUpdates
      [("X", MVal.mat a.X),
       ("smp", .map ((a.smp_keys.filter (fun k => k ≠ SMP_NAMES)).map
          (fun k => (k, (a.smp.col k).getD [])))),
       ("var", .map ((a.var_keys.filter (fun k => k ≠ VAR_NAMES)).map
          (fun k => (k, (a.var.col k).getD [])))),
       ("smp_names", .list sn), ("var_names", .list vn)] a.meta) := by
    unfold AnnData.toDict
    rw [hsn, hvn]
  refine ⟨_, hdct, ?_, ?_, ?_, ?_, ?_, ?_⟩
  · rw [lookupA_applyUpdates_not_mem _ (fun p hp => (hdisj p hp).1)]
    rfl
  · rw [lookupA_applyUpdates_not_mem _ (fun p hp => (hdisj p hp).2.2.2.1)]
    rfl
  · rw [lookupA_applyUpdates_not_mem _ (fun p hp => (hdisj p hp).2.2.2.2)]
    rfl
  · rw [lookupA_applyUpdates_not_mem _ (fun p hp => (hdisj p hp).2.1)]
    rfl
  · rw [lookupA_applyUpdates_not_mem _ (fun p hp => (hdisj p hp).2.2.1)]
    rfl
  · intro k mv hm
    exact lookupA_applyUpdates_mem _ hnod hm

/-- C7 witness: the amended statement applied to the container `ann7`
(label column first, one annotation column, one metadata key). -/
theorem to_dict_witness :
    ∃ dct, ann7.toDict = .ok dct ∧
      lookupA dct "X" = some (.mat ann7.X) ∧
      lookupA dct "smp_names" = some (.list [.str "A", .str "B"]) ∧
      lookupA dct "var_names" = some (.list (defaultLabels 3)) ∧
      lookupA dct "smp" = some (.map
        ((ann7.smp_keys.filter (fun k => k ≠ SMP_NAMES)).map
          (fun k => (k, (ann7.smp.col k).getD [])))) ∧
      lookupA dct "var" = some (.map
        ((ann7.var_keys.filter (fun k => k ≠ VAR_NAMES)).map
          (fun k => (k, (ann7.var.col k).getD [])))) ∧
      (∀ k mv, (k, mv) ∈ ann7.meta → lookupA dct k = some mv) :=
  to_dict_amended ann7 [.str "A", .str "B"] (defaultLabels 3)
    (by decide) (by decide) (by decide) (by decide)

/-- C3: on a valid container, transpose succeeds with swapped matrix
dimensions; its row table is the old column table with names mapped by
`toSmpName` (which rewrites exactly the label name and keeps every other
name) and columns unchanged, symmetrically for its column table; and
transposing a second time restores the original shape, the original
table names and columns, and in particular the original row and column
label assignments. -/
theorem transpose_thm :
    ∀ (a : AnnData), a.WF →
      ∃ t t2, a.transpose = .ok t ∧
        t.X.nrSmp = a.X.nrVar ∧ t.X.nrVar = a.X.nrSmp ∧
        t.smp.names = a.var.names.map toSmpName ∧ t.smp.cols = a.var.cols ∧
        t.var.names = a.smp.names.map toVarName ∧ t.var.cols = a.smp.cols ∧
        t.transpose = .ok t2 ∧
        t2.X.nrSmp = a.X.nrSmp ∧ t2.X.nrVar = a.X.nrVar ∧
        t2.smp.names = a.smp.names ∧ t2.smp.cols = a.smp.cols ∧
        t2.var.names = a.var.names ∧ t2.var.cols = a.var.cols ∧
        t2.smp.col SMP_NAMES = a.smp.col SMP_NAMES ∧
        t2.var.col VAR_NAMES = a.var.col VAR_NAMES := by
  intro a h
  have hsnv : VAR_NAMES ∉ a.smp.names := h.2.2.2.2.2.1
  have hvns : SMP_NAMES ∉ a.var.names := h.2.2.2.2.2.2.2.1
  refine ⟨_, _, transpose_spec h, rfl, rfl, rfl, rfl, rfl, rfl,
    transpose_spec (transpose_WF h), rfl, rfl, ?_, rfl, ?_, rfl, ?_, ?_⟩
  · exact map_toSmp_toVar hsnv
  · exact map_toVar_toSmp hvns
  · show lookupA (((a.smp.names.map toVarName).map toSmpName).zip a.smp.cols)
        SMP_NAMES = lookupA (a.smp.names.zip a.smp.cols) SMP_NAMES
    rw [map_toSmp_toVar hsnv]
  · show lookupA (((a.var.names.map toSmpName).map toVarName).zip a.var.cols)
        VAR_NAMES = lookupA (a.var.names.zip a.var.cols) VAR_NAMES
    rw [map_toVar_toSmp hvns]

/-- C3 witness: the transpose theorem applied to the container with
labels `['A','B']` / `['a','b','c']`. -/
theorem transpose_witness :
    AnnData.WF annAB ∧
    (∃ t t2, annAB.transpose = .ok t ∧
      t.X.nrSmp = annAB.X.nrVar ∧ t.X.nrVar = annAB.X.nrSmp ∧
      t.smp.names = annAB.var.names.map toSmpName ∧
      t.smp.cols = annAB.var.cols ∧
      t.var.names = annAB.smp.names.map toVarName ∧
      t.var.cols = annAB.smp.cols ∧
      t.transpose = .ok t2 ∧
      t2.X.nrSmp = annAB.X.nrSmp ∧ t2.X.nrVar = annAB.X.nrVar ∧
      t2.smp.names = annAB.smp.names ∧ t2.smp.cols = annAB.smp.cols ∧
      t2.var.names = annAB.var.names ∧ t2.var.cols = annAB.var.cols ∧
      t2.smp.col SMP_NAMES = annAB.smp.col SMP_NAMES ∧
      t2.var.col VAR_NAMES = annAB.var.col VAR_NAMES) :=
  ⟨by decide, transpose_thm annAB (by decide)⟩

/-- C7 counterexample: for the container whose sample table was built
from `dict(Smp=['A','B'])` (annotation column first, label column
appended last), the serialized row sub-mapping is empty even though the
non-label annotation columns are exactly `['Smp']`: `smp_keys()` drops
the *first* field, not the label field. -/
theorem to_dict_cex :
    (annSmp.toDict).map (fun d => lookupA d "smp") = .ok (some (.map [])) ∧
    annSmp.smp.columns = ["Smp"] :=
  ⟨rfl, rfl⟩

end Scanpy
